import Mathlib

/-!
# Verification of the wurm object-relational mapper core

Shallow embedding of the wurm persistence engine (`src/wurm/typemaps.py`,
`src/wurm/tables.py`, `src/wurm/queries.py`, `src/wurm/sql.py`) and proofs
about the type/column registry, the identity map, the query engine, the
statement generator and relation resolution.

Modelling conventions:
* sqlite storage values are the inductive `Wurm.SQLValue`; Python floats are
  carried by their 64-bit pattern (a `Nat`), which is exact for the
  passthrough encode/decode used by the registry (no float arithmetic occurs
  anywhere in the modelled code).
* Python exceptions are modelled as `Option.none` (decode / table-layer
  failures) or as explicit error constructors (`Wurm.WurmErr`) where the
  distinct failure kinds matter for the specification; each constructor
  carries the data interpolated into the source's error message.
* Python object identity is modelled by allocating numeric instance ids from
  a heap inside `Wurm.DBState`; the per-type identity map
  (`WeakValueDictionary`) is an association list from primary-key tuples to
  instance ids.  Garbage collection never evicts an entry while the claims
  under study hold a reference, so no eviction is modelled.
-/

set_option autoImplicit false

namespace Wurm


/-- A sqlite storage-class value: NULL, INTEGER, TEXT, REAL or BLOB.
REAL is represented by the 64-bit pattern of the IEEE double (the modelled
code only moves floats around, it never computes with them). -/
inductive SQLValue where
  | null
  | int (i : Int)
  | text (s : String)
  | real (bits : Nat)
  | blob (b : List Nat)
deriving DecidableEq, Repr

/-! ## Decimal digit helpers

`datetime.date.isoformat` prints zero-padded decimal fields and
`fromisoformat` parses them back.  We model the padded printing digit by
digit so that the parse direction is plain arithmetic. -/

/-- The decimal digit character for `n` (callers only use `n ≤ 9`). -/
def digitChar (n : Nat) : Char :=
  if n = 0 then '0' else if n = 1 then '1' else if n = 2 then '2' else if n = 3 then '3'
  else if n = 4 then '4' else if n = 5 then '5' else if n = 6 then '6' else if n = 7 then '7'
  else if n = 8 then '8' else '9'

/-- The numeric value of a decimal digit character. -/
def charDigit (c : Char) : Nat := c.toNat - 48

/-- Is `c` one of `'0'..'9'`? -/
def isDigitChar (c : Char) : Bool := 48 ≤ c.toNat && c.toNat ≤ 57

/-- `"%02d"` for `n < 100`: the two decimal digits of `n`. -/
def twoDigits (n : Nat) : List Char := [digitChar (n / 10), digitChar (n % 10)]

/-- `"%04d"` for `n < 10000`: the four decimal digits of `n`. -/
def fourDigits (n : Nat) : List Char :=
  [digitChar (n / 1000), digitChar (n / 100 % 10), digitChar (n / 10 % 10), digitChar (n % 10)]

/-- `"%06d"` for `n < 1000000`: the six decimal digits of `n`. -/
def sixDigits (n : Nat) : List Char :=
  [digitChar (n / 100000), digitChar (n / 10000 % 10), digitChar (n / 1000 % 10),
   digitChar (n / 100 % 10), digitChar (n / 10 % 10), digitChar (n % 10)]

def parse2 (a b : Char) : Nat := 10 * charDigit a + charDigit b

def parse4 (a b c d : Char) : Nat :=
  1000 * charDigit a + 100 * charDigit b + 10 * charDigit c + charDigit d

def parse6 (a b c d e f : Char) : Nat :=
  100000 * charDigit a + 10000 * charDigit b + 1000 * charDigit c +
    100 * charDigit d + 10 * charDigit e + charDigit f

/-! ## `datetime.date` -/

/-- A Python `datetime.date`: year, month, day. -/
structure PyDate where
  year : Nat
  month : Nat
  day : Nat
deriving DecidableEq, Repr

def isLeap (y : Nat) : Bool := y % 4 == 0 && (y % 100 != 0 || y % 400 == 0)

def daysInMonth (y m : Nat) : Nat :=
  if m == 2 then (if isLeap y then 29 else 28)
  else if m == 4 || m == 6 || m == 9 || m == 11 then 30
  else 31

/-- The values `datetime.date` can hold (checked by its constructor). -/
def PyDate.validB (d : PyDate) : Bool :=
  1 ≤ d.year && d.year ≤ 9999 && 1 ≤ d.month && d.month ≤ 12 &&
    1 ≤ d.day && d.day ≤ daysInMonth d.year d.month

/-- `date.isoformat`: `YYYY-MM-DD`. -/
def dateChars (d : PyDate) : List Char :=
  fourDigits d.year ++ '-' :: (twoDigits d.month ++ '-' :: twoDigits d.day)

def dateToIso (d : PyDate) : String := String.mk (dateChars d)

/-- `date.fromisoformat`, modelled from the Python standard library: accepts
exactly `YYYY-MM-DD` and validates the field ranges via the `date`
constructor. -/
def dateFromChars (cs : List Char) : Option PyDate :=
  match cs with
  | [y1, y2, y3, y4, s1, m1, m2, s2, d1, d2] =>
    if s1 = '-' && s2 = '-' && isDigitChar y1 && isDigitChar y2 && isDigitChar y3 &&
        isDigitChar y4 && isDigitChar m1 && isDigitChar m2 && isDigitChar d1 &&
        isDigitChar d2 then
      let d : PyDate := ⟨parse4 y1 y2 y3 y4, parse2 m1 m2, parse2 d1 d2⟩
      if d.validB then some d else none
    else none
  | _ => none

def dateFromIso (s : String) : Option PyDate := dateFromChars s.data

/-! ## `datetime.time`

Naive times only: the registry stores whatever `time.isoformat` prints, and
all claims under study concern values without a timezone offset. -/

/-- A Python naive `datetime.time`: hour, minute, second, microsecond. -/
structure PyTime where
  hour : Nat
  minute : Nat
  second : Nat
  micro : Nat
deriving DecidableEq, Repr

def PyTime.validB (t : PyTime) : Bool :=
  t.hour ≤ 23 && t.minute ≤ 59 && t.second ≤ 59 && t.micro ≤ 999999

/-- `time.isoformat`: `HH:MM:SS` plus `.ffffff` when the microsecond field is
nonzero (the default `timespec='auto'`). -/
def timeChars (t : PyTime) : List Char :=
  twoDigits t.hour ++ ':' :: (twoDigits t.minute ++ ':' :: twoDigits t.second) ++
    (if t.micro = 0 then [] else '.' :: sixDigits t.micro)

def timeToIso (t : PyTime) : String := String.mk (timeChars t)

/-- `time.fromisoformat`, modelled from the Python standard library for the
two shapes `isoformat` emits. -/
def timeFromChars (cs : List Char) : Option PyTime :=
  match cs with
  | [h1, h2, c1, m1, m2, c2, s1, s2] =>
    if c1 = ':' && c2 = ':' && isDigitChar h1 && isDigitChar h2 && isDigitChar m1 &&
        isDigitChar m2 && isDigitChar s1 && isDigitChar s2 then
      let t : PyTime := ⟨parse2 h1 h2, parse2 m1 m2, parse2 s1 s2, 0⟩
      if t.validB then some t else none
    else none
  | [h1, h2, c1, m1, m2, c2, s1, s2, dot, u1, u2, u3, u4, u5, u6] =>
    if c1 = ':' && c2 = ':' && dot = '.' && isDigitChar h1 && isDigitChar h2 &&
        isDigitChar m1 && isDigitChar m2 && isDigitChar s1 && isDigitChar s2 &&
        isDigitChar u1 && isDigitChar u2 && isDigitChar u3 && isDigitChar u4 &&
        isDigitChar u5 && isDigitChar u6 then
      let t : PyTime := ⟨parse2 h1 h2, parse2 m1 m2, parse2 s1 s2, parse6 u1 u2 u3 u4 u5 u6⟩
      if t.validB then some t else none
    else none
  | _ => none

def timeFromIso (s : String) : Option PyTime := timeFromChars s.data

/-! ## `datetime.datetime` -/

/-- A Python naive `datetime.datetime`. -/
structure PyDateTime where
  date : PyDate
  time : PyTime
deriving DecidableEq, Repr

def PyDateTime.validB (dt : PyDateTime) : Bool := dt.date.validB && dt.time.validB

/-- `datetime.isoformat` with the default separator: `YYYY-MM-DDTHH:MM:SS[.ffffff]`. -/
def datetimeChars (dt : PyDateTime) : List Char :=
  dateChars dt.date ++ 'T' :: timeChars dt.time

def datetimeToIso (dt : PyDateTime) : String := String.mk (datetimeChars dt)

/-- `datetime.fromisoformat`, modelled from the Python standard library:
the first ten characters are the date, character eleven is an arbitrary
separator, the rest is the time. -/
def datetimeFromChars (cs : List Char) : Option PyDateTime :=
  match cs with
  | y1 :: y2 :: y3 :: y4 :: s1 :: m1 :: m2 :: s2 :: d1 :: d2 :: _sep :: rest =>
    match dateFromChars [y1, y2, y3, y4, s1, m1, m2, s2, d1, d2], timeFromChars rest with
    | some d, some t => some ⟨d, t⟩
    | _, _ => none
  | _ => none

def datetimeFromIso (s : String) : Option PyDateTime := datetimeFromChars s.data

/-! ## `pathlib.Path`

A `PurePosixPath` is its normalized form: an absoluteness flag plus the list
of path components (`Path.parts` without the root entry).  `str` joins the
components with `'/'`; constructing a `Path` from a string splits on `'/'`
and drops empty and `'.'` components, which is the identity on normalized
strings. -/

structure PyPath where
  absolute : Bool
  parts : List String
deriving DecidableEq, Repr

/-- Split a character list on a separator (`str.split` semantics: `n+1`
pieces for `n` separators, empty pieces included). -/
def splitSep (sep : Char) : List Char → List (List Char)
  | [] => [[]]
  | c :: cs =>
    match splitSep sep cs with
    | [] => [[]]
    | g :: gs => if c = sep then [] :: g :: gs else (c :: g) :: gs

/-- Join character lists with a separator. -/
def joinSep (sep : Char) : List (List Char) → List Char
  | [] => []
  | [x] => x
  | x :: y :: xs => x ++ sep :: joinSep sep (y :: xs)

/-- `str(path)`. -/
def pathChars (p : PyPath) : List Char :=
  (if p.absolute then ['/'] else if p.parts = [] then ['.'] else []) ++
    joinSep '/' (p.parts.map String.data)

def pathStr (p : PyPath) : String := String.mk (pathChars p)

/-- Does the string begin with the path separator (root detection)? -/
def startsWithSlash (cs : List Char) : Bool :=
  match cs with
  | c :: _ => c == '/'
  | [] => false

/-- `Path(s)`: absolute iff the string starts with `'/'`; components are the
nonempty, non-`'.'` pieces between separators. -/
def parsePath (s : String) : PyPath :=
  ⟨startsWithSlash s.data,
   ((splitSep '/' s.data).map String.mk).filter (fun c => c ≠ "" && c ≠ ".")⟩

/-- The component lists an actual `PurePosixPath` can hold. -/
def PyPath.valid (p : PyPath) : Prop :=
  ∀ c ∈ p.parts, c ≠ "" ∧ c ≠ "." ∧ '/' ∉ c.data

instance (p : PyPath) : Decidable p.valid := by
  unfold PyPath.valid; infer_instance

/-! ## The type & column registry (`src/wurm/typemaps.py`)

`TYPE_MAPPING` holds the nine registered primitive types (scalar storage
kind) plus composite registrations made through `register_dataclass`
(a `dict` storage shape: ordered named constituents drawn from
`SQL_EQUIVALENTS = {int, str, float, bytes}` with `encode=astuple`,
`decode=<the dataclass>`).  Foreign keys are table types, dispatched
structurally in `columns_for` / `to_stored` / `from_stored`. -/

/-- A storage base kind usable as a composite constituent
(`SQL_EQUIVALENTS` keys). -/
inductive BaseKind where
  | kint | kstr | kfloat | kbytes
deriving DecidableEq, Repr

/-- The nine scalar types registered at the bottom of `typemaps.py`. -/
inductive PrimType where
  | pint | pstr | pfloat | pbytes | pbool | pdate | ptime | pdatetime | ppath
deriving DecidableEq, Repr

mutual
/-- A field's declared value type: a registered scalar, a registered
composite (dataclass) shape, or a foreign key to another table. -/
inductive PyType where
  | prim (p : PrimType)
  | comp (shape : List (String × BaseKind))
  | fk (target : FKTarget)

/-- The data `to_stored`/`columns_for` read off a referenced table class:
its name (standing in for Python class identity) and its primary-key
fields with their declared types (`__primary_key__` ordered as in
`__fields_info__`). -/
inductive FKTarget where
  | mk (name : String) (pkFields : List (String × PyType))
end

def FKTarget.name : FKTarget → String
  | .mk n _ => n

def FKTarget.pkFields : FKTarget → List (String × PyType)
  | .mk _ fs => fs

/-- A Python value as it can appear in a model field.  `vinst` is a live
table-instance reference seen through the attributes `to_stored` reads from
it: the values of the target's primary-key fields, in order. -/
inductive PyValue where
  | none
  | vint (i : Int)
  | vstr (s : String)
  | vfloat (bits : Nat)
  | vbytes (b : List Nat)
  | vbool (b : Bool)
  | vdate (d : PyDate)
  | vtime (t : PyTime)
  | vdatetime (dt : PyDateTime)
  | vpath (p : PyPath)
  | vcomp (vals : List PyValue)
  | vinst (pkVals : List PyValue)

/-- `columns_for(field_name, python_type)` from `typemaps.py`: a table type
yields one column per primary-key field named `{field}_{pk}`; a
mapping-shaped registration yields `{field}_{key}` per constituent; a scalar
registration yields the bare field name. -/
def columns_for (field_name : String) (ty : PyType) : List String :=
  match ty with
  | .fk t => t.pkFields.map (fun pk => field_name ++ "_" ++ pk.1)
  | .comp shape => shape.map (fun kv => field_name ++ "_" ++ kv.1)
  | .prim _ => [field_name]

/-- The registered `encode` of a scalar type applied to a value of the
right type (`passthrough` for `str`/`bytes`/`int`/`float`, `int` for
`bool`, `isoformat` for the temporal types, `str` for `Path`).  `none`
models a `TypeError` from the encoder. -/
def encodePrim (p : PrimType) (v : PyValue) : Option SQLValue :=
  match p, v with
  | .pint, .vint i => some (.int i)
  | .pstr, .vstr s => some (.text s)
  | .pfloat, .vfloat bits => some (.real bits)
  | .pbytes, .vbytes b => some (.blob b)
  | .pbool, .vbool b => some (.int (if b then 1 else 0))
  | .pdate, .vdate d => some (.text (dateToIso d))
  | .ptime, .vtime t => some (.text (timeToIso t))
  | .pdatetime, .vdatetime dt => some (.text (datetimeToIso dt))
  | .ppath, .vpath pa => some (.text (pathStr pa))
  | _, _ => Option.none

/-- Re-embedding of a storage value as the Python value sqlite hands back,
used where the source stores or returns values unchecked (`passthrough`
decode, dataclass constructor fields). -/
def sqlToPy : SQLValue → PyValue
  | .null => .none
  | .int i => .vint i
  | .text s => .vstr s
  | .real bits => .vfloat bits
  | .blob b => .vbytes b

/-- The registered `decode` of a scalar type applied to one stored value.
`passthrough` types take whatever sqlite returned; `bool` applies Python
truthiness to the stored integer; the temporal types and `Path` parse the
stored text. -/
def decodePrim (p : PrimType) (sv : SQLValue) : Option PyValue :=
  match p, sv with
  | .pint, _ => some (sqlToPy sv)
  | .pstr, _ => some (sqlToPy sv)
  | .pfloat, _ => some (sqlToPy sv)
  | .pbytes, _ => some (sqlToPy sv)
  | .pbool, .int i => some (.vbool (i != 0))
  | .pbool, _ => Option.none
  | .pdate, .text s => (dateFromIso s).map .vdate
  | .pdate, _ => Option.none
  | .ptime, .text s => (timeFromIso s).map .vtime
  | .ptime, _ => Option.none
  | .pdatetime, .text s => (datetimeFromIso s).map .vdatetime
  | .pdatetime, _ => Option.none
  | .ppath, .text s => some (.vpath (parsePath s))
  | .ppath, _ => Option.none

/-- Storage of one composite constituent: `astuple` hands the raw field
value to sqlite, which accepts exactly the four base kinds. -/
def encodeBase (k : BaseKind) (v : PyValue) : Option SQLValue :=
  match k, v with
  | .kint, .vint i => some (.int i)
  | .kstr, .vstr s => some (.text s)
  | .kfloat, .vfloat bits => some (.real bits)
  | .kbytes, .vbytes b => some (.blob b)
  | _, _ => Option.none

/-- The dict comprehension in the mapping branch of `to_stored`:
`zip(sql_type, encode(value))` pairs the constituent keys with `astuple`'s
raw values, truncating at the shorter list exactly as `zip` does. -/
def encodeCompFields (field_name : String) :
    List (String × BaseKind) → List PyValue → Option (List (String × SQLValue))
  | [], _ => some []
  | _ :: _, [] => some []
  | kv :: ks, w :: ws =>
    match encodeBase kv.2 w, encodeCompFields field_name ks ws with
    | some sv, some tl => some ((field_name ++ "_" ++ kv.1, sv) :: tl)
    | _, _ => Option.none

mutual
/-- `to_stored(field_name, python_type, value)` from `typemaps.py`: `None`
maps every column to storage null (`dict.fromkeys`); a table type encodes
the referenced instance's primary-key fields recursively under
`{field}_{pk}` names; a mapping-shaped registration zips the constituent
keys with `encode(value)`; a scalar registration stores `encode(value)`
under the bare field name. -/
def to_stored (field_name : String) (ty : PyType) (v : PyValue) :
    Option (List (String × SQLValue)) :=
  match v with
  | .none => some ((columns_for field_name ty).map (fun c => (c, SQLValue.null)))
  | _ =>
    match ty with
    | .prim p => (encodePrim p v).map (fun sv => [(field_name, sv)])
    | .comp shape =>
      match v with
      | .vcomp vals => encodeCompFields field_name shape vals
      | _ => Option.none
    | .fk (.mk _ pkFields) =>
      match v with
      | .vinst pkVals => encodeFkFields field_name pkFields pkVals
      | _ => Option.none
termination_by sizeOf ty

/-- The dict comprehension in the table branch of `to_stored`: one
recursive `to_stored(f'{field_name}_{pk}', …, getattr(value, pk))` per
primary-key field of the target. -/
def encodeFkFields (field_name : String) (pkFields : List (String × PyType))
    (pkVals : List PyValue) : Option (List (String × SQLValue)) :=
  match pkFields, pkVals with
  | [], [] => some []
  | (pk, pkTy) :: rest, w :: ws =>
    match to_stored (field_name ++ "_" ++ pk) pkTy w, encodeFkFields field_name rest ws with
    | some hd, some tl => some (hd ++ tl)
    | _, _ => Option.none
  | _, _ => Option.none
termination_by sizeOf pkFields
end

/-- The pure part of `from_stored(stored_tuple, python_type)`: an all-null
tuple decodes to `None`; a scalar registration applies its `decode` to the
single stored value; a mapping-shaped registration calls the dataclass
constructor positionally (unchecked).  The table branch calls the stateful
`get_object` and is modelled by `decodeFieldS` below. -/
def from_stored (stored : List SQLValue) (ty : PyType) : Option PyValue :=
  if stored.all (fun sv => sv = .null) then some .none
  else
    match ty with
    | .fk _ => Option.none
    | .comp shape =>
      if stored.length = shape.length then some (.vcomp (stored.map sqlToPy)) else Option.none
    | .prim p =>
      match stored with
      | [sv] => decodePrim p sv
      | _ => Option.none

/-- Does a value have a composite constituent's base kind? -/
def typedBase (v : PyValue) (k : BaseKind) : Bool :=
  match v, k with
  | .vint _, .kint => true
  | .vstr _, .kstr => true
  | .vfloat _, .kfloat => true
  | .vbytes _, .kbytes => true
  | _, _ => false

mutual
/-- Well-typedness of a (non-`None`) field value against its declared type,
including the representability bounds of the temporal and path types. -/
def typedVal : PyValue → PyType → Bool
  | .vint _, .prim .pint => true
  | .vstr _, .prim .pstr => true
  | .vfloat _, .prim .pfloat => true
  | .vbytes _, .prim .pbytes => true
  | .vbool _, .prim .pbool => true
  | .vdate d, .prim .pdate => d.validB
  | .vtime t, .prim .ptime => t.validB
  | .vdatetime dt, .prim .pdatetime => dt.validB
  | .vpath pa, .prim .ppath => decide pa.valid
  | .vcomp vals, .comp shape => typedBases vals shape
  | .vinst ws, .fk (.mk _ pkFields) => typedFkVals ws pkFields
  | _, _ => false
termination_by _ ty => sizeOf ty

def typedBases : List PyValue → List (String × BaseKind) → Bool
  | [], [] => true
  | w :: ws, kv :: ks => typedBase w kv.2 && typedBases ws ks
  | _, _ => false

def typedFkVals : List PyValue → List (String × PyType) → Bool
  | [], [] => true
  | w :: ws, (_, ty) :: rest => typedVal w ty && typedFkVals ws rest
  | _, _ => false
termination_by _ pkFields => sizeOf pkFields
end

/-- A representable field value: `None` or a well-typed value. -/
def representable (v : PyValue) (ty : PyType) : Bool :=
  match v with
  | .none => true
  | _ => typedVal v ty

/-- Types that go through `TYPE_MAPPING` (not the foreign-key branch), with
a nonempty column expansion as §3's column mapping requires ("one or more
physical columns"). -/
def PyType.registeredB : PyType → Bool
  | .prim _ => true
  | .comp shape => !shape.isEmpty
  | .fk _ => false

/-! ## Tables, instances and the identity map (`src/wurm/tables.py`)

A table instance is identified by a numeric heap id (standing for Python
object identity); its dataclass fields live in the heap as an association
list.  `DBState` bundles the stored rows per table, the per-table identity
maps (`__id_map__`, a `WeakValueDictionary` from primary-key tuple to live
instance) and the heap.  Weak-reference eviction is not modelled: every
claim under study keeps a reference to the instances involved. -/

/-- Association-list lookup (Python `dict` access by key). -/
def lookupA {κ α : Type} [DecidableEq κ] : List (κ × α) → κ → Option α
  | [], _ => Option.none
  | (k, v) :: rest, key => if k = key then some v else lookupA rest key

/-- Association-list update (Python `dict.__setitem__`: replaces in place,
appends when new). -/
def setA {κ α : Type} [DecidableEq κ] : List (κ × α) → κ → α → List (κ × α)
  | [], key, v => [(key, v)]
  | (k, w) :: rest, key, v =>
    if k = key then (key, v) :: rest else (k, w) :: setA rest key v

/-- Association-list removal (Python `dict.pop` / `del`). -/
def removeA {κ α : Type} [DecidableEq κ] : List (κ × α) → κ → List (κ × α)
  | [], _ => []
  | (k, w) :: rest, key => if k = key then rest else (k, w) :: removeA rest key

/-- A declared record type as the metaclass computes it:
`__table_name__`, `__fields_info__` (declaration-ordered, annotations
unwrapped), `__primary_key__` and `__strict_relations__`. -/
structure TableSchema where
  name : String
  fields : List (String × PyType)
  primaryKey : List String
  strictRels : List String

/-- An instance's dataclass fields (`self.__dict__` restricted to fields). -/
abbrev Obj : Type := List (String × PyValue)

/-- The mutable world: stored rows per table, `__id_map__` per table, and
the Python heap of live instances. -/
structure DBState where
  tables : List (String × List (List SQLValue))
  idMaps : List (String × List (List SQLValue × Nat))
  heap : List (Nat × Obj)
  nextId : Nat

def DBState.idMapOf (s : DBState) (t : String) : List (List SQLValue × Nat) :=
  (lookupA s.idMaps t).getD []

def DBState.rowsOf (s : DBState) (t : String) : List (List SQLValue) :=
  (lookupA s.tables t).getD []

def DBState.obj (s : DBState) (i : Nat) : Option Obj := lookupA s.heap i

/-- The values `getattr(value, pk)` reads off a live instance for each
primary-key field of a target table (builds the `vinst` view used by
`to_stored`). -/
def pkValuesOf (obj : Obj) : List (String × PyType) → Option (List PyValue)
  | [] => some []
  | (pk, _) :: rest =>
    match lookupA obj pk, pkValuesOf obj rest with
    | some v, some vs => some (v :: vs)
    | _, _ => Option.none

/-- `self(**values)` followed by `item.rowid = rowid` when a rowid was
popped from the decoded values (`get_object`'s construction step). -/
def objFromValues (vs : Obj) : Obj :=
  match lookupA vs "rowid" with
  | some r => setA (removeA vs "rowid") "rowid" r
  | Option.none => vs

/-- Construct the new instance and put it in the identity map
(`self.__id_map__[pk] = item = self(**values)` plus the rowid fixup); the
new instance id is `s.nextId`. -/
def registerNew (t : TableSchema) (s : DBState) (pk : List SQLValue) (vs : Obj) : DBState :=
  { s with
    idMaps := setA s.idMaps t.name (setA (s.idMapOf t.name) pk s.nextId),
    heap := (s.nextId, objFromValues vs) :: s.heap,
    nextId := s.nextId + 1 }

/-- The strict-relation loop of `get_object`
(`for rel in self.__strict_relations__: item.__dict__[rel] = getattr(item, rel)`).
`attach` abstracts one iteration, which re-enters the query engine. -/
def afterStrict (attach : String → DBState → Nat → DBState) (t : TableSchema)
    (s : DBState) (i : Nat) : DBState :=
  t.strictRels.foldl (fun st rel => attach rel st i) s

/-- `TableMeta.get_object(pk, values)` from `tables.py`: return the cached
instance when the key is in the identity map; otherwise construct one from
the decoded values, register it, run the strict-relation loop, and return
the map entry.  `values = none` models the `from_stored` call
`python_type.get_object(stored_tuple, None)`, which raises (`'rowid' in
None`) when the key is not cached. -/
def getObject (attach : String → DBState → Nat → DBState) (t : TableSchema)
    (s : DBState) (pk : List SQLValue) (values : Option Obj) : Option (DBState × Nat) :=
  match lookupA (s.idMapOf t.name) pk with
  | some i => some (s, i)
  | Option.none =>
    match values with
    | Option.none => Option.none
    | some vs =>
      match lookupA ((afterStrict attach t (registerNew t s pk vs) s.nextId).idMapOf t.name) pk with
      | some j => some (afterStrict attach t (registerNew t s pk vs) s.nextId, j)
      | Option.none => Option.none

/-- The stateful `from_stored`: the table branch consults the target's
identity map first (`get_object(stored_tuple, None)`) and raises on a
miss; every other branch is the pure `from_stored`. -/
def decodeFieldS (s : DBState) (stored : List SQLValue) (ty : PyType) : Option PyValue :=
  if stored.all (fun sv => sv = .null) then some .none
  else
    match ty with
    | .fk (.mk tname pkFields) =>
      match lookupA (s.idMapOf tname) stored with
      | some i =>
        match s.obj i with
        | some obj => (pkValuesOf obj pkFields).map PyValue.vinst
        | Option.none => Option.none
      | Option.none => Option.none
    | _ => from_stored stored ty

/-- The field loop of `decode_row`: slice `columns_for`-many stored values
per field, accumulate the primary-key segments, decode each slice; returns
the decoded values, the key tuple and the unconsumed remainder of the
row. -/
def decodeRowGo (s : DBState) (pkNames : List String) :
    List (String × PyType) → List SQLValue →
    Option (Obj × List SQLValue × List SQLValue)
  | [], row => some ([], [], row)
  | (name, ty) :: rest, row =>
    let n := (columns_for name ty).length
    let segment := row.take n
    match decodeFieldS s segment ty, decodeRowGo s pkNames rest (row.drop n) with
    | some v, some (values, pk, leftover) =>
      some ((name, v) :: values,
        (if pkNames.contains name then segment ++ pk else pk), leftover)
    | _, _ => Option.none

/-- `decode_row(table, row)` from `queries.py`: decode every field,
`assert not row` (the whole row must be consumed), then route the result
through the identity map via `get_object`. -/
def decodeRow (attach : String → DBState → Nat → DBState) (t : TableSchema)
    (s : DBState) (row : List SQLValue) : Option (DBState × Nat) :=
  match decodeRowGo s t.primaryKey t.fields row with
  | some (values, pk, leftover) =>
    if leftover.isEmpty then getObject attach t s pk (some values) else Option.none
  | Option.none => Option.none

/-! ## The query engine (`src/wurm/queries.py`) and statement texts
(`src/wurm/sql.py`) -/

/-- `Comparison(op, value)` from `queries.py`. -/
structure Comparison where
  op : String
  value : PyValue

/-- A keyword-filter value before normalization: either a bare value or an
explicit comparison (`lt`/`gt`/`le`/`ge`/`eq`/`ne`). -/
inductive FilterVal where
  | raw (v : PyValue)
  | cmp (c : Comparison)

/-- `ensure_comparison`: bare values become equality comparisons. -/
def ensure_comparison : FilterVal → Comparison
  | .cmp c => c
  | .raw v => ⟨"=", v⟩

/-- The engine's failure kinds.  The source raises `WurmError` (or
`TypeError`/`ValueError`/`KeyError`) with an interpolated message; each
constructor stands for one distinct message shape and carries the data the
message interpolates. -/
inductive WurmErr where
  | unknownField (table fieldname : String)
  | typeError
  | notEnoughRows (expected got : Nat)
  | tooManyRows (expected : Nat)
  | decodeFailure
  | notPersisted
  | keyError
  | attrError
  | invalidTarget (target owner relName : String)
  | noMatchingField (targetTable owner relName : String)
  | ambiguousRelation (targetTable owner relName : String) (possible : List String)
  | wrongRelationType (target owner relName : String)
deriving DecidableEq, Repr

/-- `encode_query_value(table, fieldname, value)`: linear search of
`__fields_info__`, then `to_stored`; a missing field raises
`WurmError(f'invalid query: {table}.{fieldname} does not exist')`. -/
def encode_query_value (t : TableSchema) (fieldname : String) (v : PyValue) :
    Except WurmErr (List (String × SQLValue)) :=
  match t.fields.find? (fun p => p.1 == fieldname) with
  | some fld =>
    match to_stored fieldname fld.2 v with
    | some enc => .ok enc
    | Option.none => .error .typeError
  | Option.none => .error (.unknownField t.name fieldname)

/-- The list comprehension in `Query.__init__`: per filter, normalize to a
comparison and expand to one `(column, op, cooked)` triple per encoded
column. -/
def buildTriples (t : TableSchema) :
    List (String × FilterVal) → Except WurmErr (List (String × String × SQLValue))
  | [] => .ok []
  | (key, fv) :: rest =>
    match encode_query_value t key (ensure_comparison fv).value with
    | .error e => .error e
    | .ok enc =>
      match buildTriples t rest with
      | .error e => .error e
      | .ok tl => .ok ((enc.map (fun p => (p.1, (ensure_comparison fv).op, p.2))) ++ tl)

/-- A constructed `Query`: the table and the compiled `(column, op, value)`
triples (the source keeps the bound-parameter dict `self.values` and the
predicate string `self.comparisons`, both derived from these triples —
see `QueryData.values` / `QueryData.comparisons`). -/
structure QueryData where
  table : TableSchema
  triples : List (String × String × SQLValue)

/-- `self.values`: the bound-parameter dict. -/
def QueryData.values (q : QueryData) : List (String × SQLValue) :=
  q.triples.map (fun tr => (tr.1, tr.2.2))

/-- `self.comparisons`: `' and '.join(f'{column}{op}:{column}')`. -/
def QueryData.comparisons (q : QueryData) : String :=
  String.intercalate " and " (q.triples.map (fun tr => tr.1 ++ tr.2.1 ++ ":" ++ tr.1))

/-- `Query.__init__(table, filters)`: pure construction; touches no
database state (it takes none), and fails eagerly on an unknown filter
key. -/
def mkQuery (t : TableSchema) (filters : List (String × FilterVal)) :
    Except WurmErr QueryData :=
  match buildTriples t filters with
  | .ok tr => .ok ⟨t, tr⟩
  | .error e => .error e

/-- The full expanded column list of a table, in declaration order
(`[column for field, ty in fields_info for column in columns_for(field, ty)]`). -/
def tableColumns (t : TableSchema) : List String :=
  t.fields.flatMap (fun p => columns_for p.1 p.2)

/-! ### sqlite evaluation of the compiled predicates

The statement executor is out of scope for the source (sqlite); queries
only ever compile to conjunctions of `column OP :param` over real columns,
so its observable behaviour on them is modelled directly.  Comparisons
against NULL are not satisfied (SQL three-valued logic).  REAL values are
ordered by bit pattern, which diverges from IEEE order for negative
floats; no claim compares floats. -/

def listLtNat : List Nat → List Nat → Bool
  | [], [] => false
  | [], _ :: _ => true
  | _ :: _, [] => false
  | a :: as2, b :: bs => if a < b then true else if b < a then false else listLtNat as2 bs

def sqlClassRank : SQLValue → Nat
  | .null => 0
  | .int _ => 1
  | .real _ => 1
  | .text _ => 2
  | .blob _ => 3

def sqlLt (a b : SQLValue) : Bool :=
  if sqlClassRank a ≠ sqlClassRank b then decide (sqlClassRank a < sqlClassRank b)
  else
    match a, b with
    | .int x, .int y => decide (x < y)
    | .text x, .text y => decide (x < y)
    | .blob x, .blob y => listLtNat x y
    | .real x, .real y => decide (x < y)
    | _, _ => false

def evalCmp (op : String) (cell v : SQLValue) : Bool :=
  match cell, v with
  | .null, _ => false
  | _, .null => false
  | _, _ =>
    if op = "=" then cell = v
    else if op = "!=" then !(decide (cell = v))
    else if op = "<" then sqlLt cell v
    else if op = "<=" then sqlLt cell v || decide (cell = v)
    else if op = ">" then sqlLt v cell
    else if op = ">=" then sqlLt v cell || decide (cell = v)
    else false

/-- Does a stored row satisfy every compiled comparison of the query? -/
def rowMatches (t : TableSchema) (triples : List (String × String × SQLValue))
    (row : List SQLValue) : Bool :=
  triples.all (fun tr =>
    match (tableColumns t).indexOf? tr.1 with
    | some idx =>
      match row.get? idx with
      | some cell => evalCmp tr.2.1 cell tr.2.2
      | Option.none => false
    | Option.none => false)

/-- Executing `sql.select` with the query's parameters: the table's rows
filtered by the predicate, optionally truncated by `limit :_limit_`. -/
def execSelectRows (s : DBState) (q : QueryData) (limit : Option Nat) :
    List (List SQLValue) :=
  let m := (s.rowsOf q.table.name).filter (rowMatches q.table q.triples)
  match limit with
  | some n => m.take n
  | Option.none => m

/-- The `for row in execute(...): yield decode_row(...)` loop of
`select_with_limit`, decoding each row against the state left by the
previous one. -/
def selectDecode (attach : String → DBState → Nat → DBState) (t : TableSchema) :
    DBState → List (List SQLValue) → Option (DBState × List Nat)
  | s, [] => some (s, [])
  | s, r :: rs =>
    match decodeRow attach t s r with
    | some (s1, i) =>
      match selectDecode attach t s1 rs with
      | some (s2, is) => some (s2, i :: is)
      | Option.none => Option.none
    | Option.none => Option.none

/-- `Query.select_with_limit(limit)`: the decoded instances of the
matching rows. -/
def select_with_limit (attach : String → DBState → Nat → DBState) (q : QueryData)
    (limit : Option Nat) (s : DBState) : Option (DBState × List Nat) :=
  selectDecode attach q.table s (execSelectRows s q limit)

/-- `Query._only_first(of=n)`: unpack `i, = self.select_with_limit(of)`.
Zero items raise `WurmError('not enough rows returned (expected 1, got 0)')`,
two raise `WurmError('too many rows returned (expected 1)')` (the rewritten
`ValueError` texts). -/
def only_first (attach : String → DBState → Nat → DBState) (q : QueryData)
    (of : Nat) (s : DBState) : Except WurmErr (DBState × Nat) :=
  match select_with_limit attach q (some of) s with
  | Option.none => .error .decodeFailure
  | some (s1, is) =>
    match is with
    | [i] => .ok (s1, i)
    | [] => .error (.notEnoughRows 1 0)
    | _ => .error (.tooManyRows 1)

/-- `Query.first()`: `self._only_first(of=1)`. -/
def queryFirst (attach : String → DBState → Nat → DBState) (q : QueryData)
    (s : DBState) : Except WurmErr (DBState × Nat) :=
  only_first attach q 1 s

/-- `Query.one()`: `self._only_first(of=2)`. -/
def queryOne (attach : String → DBState → Nat → DBState) (q : QueryData)
    (s : DBState) : Except WurmErr (DBState × Nat) :=
  only_first attach q 2 s

/-- `Query.__len__`: the count of matching rows
(`select count(*) … where …`). -/
def queryLen (q : QueryData) (s : DBState) : Nat :=
  ((s.rowsOf q.table.name).filter (rowMatches q.table q.triples)).length

/-- `Query.delete()`: execute `sql.delete` with the compiled predicate and
return `cursor.rowcount`, the number of rows removed. -/
def queryDelete (q : QueryData) (s : DBState) : DBState × Nat :=
  let rows := s.rowsOf q.table.name
  let kept := rows.filter (fun r => !(rowMatches q.table q.triples r))
  ({ s with tables := setA s.tables q.table.name kept }, rows.length - kept.length)

/-! ### Statement texts (`src/wurm/sql.py`) -/

/-- `sql.count(table, where)`. -/
def sqlCount (t : TableSchema) (whereStr : String) : String :=
  "select count(*) from " ++ t.name ++ " " ++
    (if whereStr = "" then "" else "where " ++ whereStr)

/-- `sql.select(table, where, limit)`. -/
def sqlSelect (t : TableSchema) (whereStr : String) (limit : Bool) : String :=
  "select * from " ++ t.name ++ " " ++
    (if whereStr = "" then "" else "where " ++ whereStr) ++ " " ++
    (if limit then "limit :_limit_" else "")

/-- `sql.insert(table)`: lists every expanded column of the record type,
primary key included, with one named parameter per column. -/
def sqlInsert (t : TableSchema) : String :=
  "insert into " ++ t.name ++ " (" ++ String.intercalate ", " (tableColumns t) ++
    ") values(" ++ String.intercalate ", " ((tableColumns t).map (fun c => ":" ++ c)) ++ ")"

/-- `sql.delete(table, where)`: unconditional when the predicate string is
empty. -/
def sqlDelete (t : TableSchema) (whereStr : String) : String :=
  "delete from " ++ t.name ++ " " ++
    (if whereStr = "" then "" else "where " ++ whereStr)

/-- The expanded data-field columns in `sql.update`'s set-clause order. -/
def dataColumns (t : TableSchema) : List String :=
  (t.fields.filter (fun p => !t.primaryKey.contains p.1)).flatMap
    (fun p => columns_for p.1 p.2)

/-- The expanded primary-key columns in `sql.update`'s where-clause order
(iterating `__primary_key__`). -/
def pkColumns (t : TableSchema) : List String :=
  t.primaryKey.flatMap (fun f =>
    match lookupA t.fields f with
    | some ty => columns_for f ty
    | Option.none => [])

/-- `sql.update(table)`: note the where-clause joins its terms with `', '`
just like the set-clause. -/
def sqlUpdate (t : TableSchema) : String :=
  "update " ++ t.name ++ " set " ++
    String.intercalate ", " ((dataColumns t).map (fun c => c ++ "=:" ++ c)) ++
    " where " ++
    String.intercalate ", " ((pkColumns t).map (fun c => c ++ "=:" ++ c))

/-! ## Per-instance operations (`src/wurm/tables.py`) -/

/-- `primary_key_columns(item)`: for each primary-key field in declaration
order, the values of `to_stored(fieldname, ty, getattr(item, fieldname))`. -/
def primaryKeyColumnsGo (pkNames : List String) (obj : Obj) :
    List (String × PyType) → Option (List SQLValue)
  | [] => some []
  | (f, ty) :: rest =>
    if pkNames.contains f then
      match lookupA obj f with
      | some v =>
        match to_stored f ty v, primaryKeyColumnsGo pkNames obj rest with
        | some enc, some tl => some (enc.map Prod.snd ++ tl)
        | _, _ => Option.none
      | Option.none => Option.none
    else primaryKeyColumnsGo pkNames obj rest

def primary_key_columns (t : TableSchema) (obj : Obj) : Option (List SQLValue) :=
  primaryKeyColumnsGo t.primaryKey obj t.fields

/-- `TableMeta.add_object(item)`: register the instance in the identity map
under its current primary-key tuple. -/
def add_object (t : TableSchema) (s : DBState) (i : Nat) : Option DBState :=
  match s.obj i with
  | some obj =>
    match primary_key_columns t obj with
    | some pk =>
      some { s with idMaps := setA s.idMaps t.name (setA (s.idMapOf t.name) pk i) }
    | Option.none => Option.none
  | Option.none => Option.none

/-- `TableMeta.del_object(item)`: `del self.__id_map__[…]`; raises
`KeyError` when the key is absent. -/
def del_object (t : TableSchema) (s : DBState) (i : Nat) : Option DBState :=
  match s.obj i with
  | some obj =>
    match primary_key_columns t obj with
    | some pk =>
      match lookupA (s.idMapOf t.name) pk with
      | some _ =>
        some { s with idMaps := setA s.idMaps t.name (removeA (s.idMapOf t.name) pk) }
      | Option.none => Option.none
    | Option.none => Option.none
  | Option.none => Option.none

/-- `BaseTable._encode_row`: the bound-parameter dict listing every
expanded column of every field. -/
def encodeRowGo (obj : Obj) : List (String × PyType) → Option (List (String × SQLValue))
  | [] => some []
  | (f, ty) :: rest =>
    match lookupA obj f with
    | some v =>
      match to_stored f ty v, encodeRowGo obj rest with
      | some enc, some tl => some (enc ++ tl)
      | _, _ => Option.none
    | Option.none => Option.none

def encode_row (t : TableSchema) (obj : Obj) : Option (List (String × SQLValue)) :=
  encodeRowGo obj t.fields

/-- Bind the statement's parameters positionally against a column list
(an unbound parameter is a sqlite error). -/
def paramsRow (params : List (String × SQLValue)) : List String → Option (List SQLValue)
  | [] => some []
  | c :: cs =>
    match lookupA params c, paramsRow params cs with
    | some v, some tl => some (v :: tl)
    | _, _ => Option.none

/-- The column sqlite treats as an alias of the rowid: a single
primary-key column declared INTEGER (wurm's generated
`create table … (…, PRIMARY KEY (col))` makes such a column an alias, and
`WithoutRowid` tables are not actually declared `WITHOUT ROWID`). -/
def rowidAliasCol (t : TableSchema) : Option String :=
  match t.primaryKey with
  | [f] =>
    match lookupA t.fields f with
    | some (.prim .pint) => some f
    | _ => Option.none
  | _ => Option.none

/-- The next rowid sqlite assigns: one more than the largest existing
value of the alias column. -/
def nextRowid (rows : List (List SQLValue)) (idx : Nat) : Int :=
  (rows.foldl (fun acc r =>
    match r.get? idx with
    | some (.int v) => max acc v
    | _ => acc) 0) + 1

/-- Executing `sql.insert(t)` with bound parameters: append the new row,
auto-assigning the rowid-alias column when its bound value is null, and
report `cursor.lastrowid`.  (Primary-key/unique constraint violations are
not modelled; no claim under study exercises them.) -/
def execInsert (s : DBState) (t : TableSchema) (params : List (String × SQLValue)) :
    Option (DBState × Int) :=
  match paramsRow params (tableColumns t) with
  | Option.none => Option.none
  | some row0 =>
    match rowidAliasCol t with
    | some c =>
      match (tableColumns t).indexOf? c with
      | some idx =>
        match row0.get? idx with
        | some .null =>
          let rid := nextRowid (s.rowsOf t.name) idx
          let newRows := s.rowsOf t.name ++ [row0.set idx (.int rid)]
          some ({ s with tables := setA s.tables t.name newRows }, rid)
        | some (.int v) =>
          some ({ s with tables := setA s.tables t.name (s.rowsOf t.name ++ [row0]) }, v)
        | _ => Option.none
      | Option.none => Option.none
    | Option.none =>
      some ({ s with tables := setA s.tables t.name (s.rowsOf t.name ++ [row0]) }, 0)

/-- `BaseTable.insert()`: execute the insert, set `self.rowid =
cursor.lastrowid` when `'rowid'` is part of the primary key, then
`add_object(self)`. -/
def instanceInsert (t : TableSchema) (s : DBState) (i : Nat) : Option DBState :=
  match s.obj i with
  | Option.none => Option.none
  | some obj =>
    match encode_row t obj with
    | Option.none => Option.none
    | some params =>
      match execInsert s t params with
      | Option.none => Option.none
      | some (s1, lastrowid) =>
        if t.primaryKey.contains "rowid" then
          match s1.obj i with
          | some o =>
            add_object t
              { s1 with heap := setA s1.heap i (setA o "rowid" (.vint lastrowid)) } i
          | Option.none => Option.none
        else add_object t s1 i

/-- Executing `sql.update(t)` with bound parameters.  The generated
statement is syntactically invalid when the primary key expands to more
than one column (the where-clause joins terms with `', '`) or when there
are no data columns (empty set-clause); sqlite then raises, modelled as
`none`.  Otherwise every row whose primary-key columns equal the bound
key values gets its data columns overwritten. -/
def execUpdate (s : DBState) (t : TableSchema) (params : List (String × SQLValue)) :
    Option (DBState × Nat) :=
  if (pkColumns t).length ≠ 1 ∨ dataColumns t = [] then Option.none
  else
    let matches_ : List SQLValue → Bool := fun r =>
      (pkColumns t).all (fun c =>
        match (tableColumns t).indexOf? c, lookupA params c with
        | some idx, some v =>
          match r.get? idx with
          | some cell => evalCmp "=" cell v
          | Option.none => false
        | _, _ => false)
    let updateRow : List SQLValue → List SQLValue := fun r =>
      (dataColumns t).foldl (fun r2 c =>
        match (tableColumns t).indexOf? c, lookupA params c with
        | some idx, some v => r2.set idx v
        | _, _ => r2) r
    let rows := s.rowsOf t.name
    let newRows := rows.map (fun r => if matches_ r then updateRow r else r)
    some ({ s with tables := setA s.tables t.name newRows },
      rows.countP (fun r => matches_ r))

/-- `BaseTable.commit()`: `execute(sql.update(type(self)), self._encode_row())`.
No primary-key check of any kind is performed. -/
def instanceCommit (t : TableSchema) (s : DBState) (i : Nat) : Option DBState :=
  match s.obj i with
  | some obj =>
    match encode_row t obj with
    | some params => (execUpdate s t params).map Prod.fst
    | Option.none => Option.none
  | Option.none => Option.none

/-- `self._primary_key()`: `{key: getattr(self, key) for key in __primary_key__}`,
as keyword filters (bare values, hence equality comparisons). -/
def primaryKeyFilters (obj : Obj) : List String → Option (List (String × FilterVal))
  | [] => some []
  | f :: rest =>
    match lookupA obj f, primaryKeyFilters obj rest with
    | some v, some tl => some ((f, .raw v) :: tl)
    | _, _ => Option.none

/-- `BaseTable.delete()`: `Query(type(self), self._primary_key()).delete()`
then `del_object(self)`. -/
def baseDelete (t : TableSchema) (s : DBState) (i : Nat) : Option DBState :=
  match s.obj i with
  | Option.none => Option.none
  | some obj =>
    match primaryKeyFilters obj t.primaryKey with
    | Option.none => Option.none
    | some filters =>
      match mkQuery t filters with
      | .error _ => Option.none
      | .ok q => del_object t (queryDelete q s).1 i

/-- `Table.delete()` (the rowid override): raise
`ValueError('Cannot delete instance not in database')` when `self.rowid is
None`, else `super().delete()` and reset `self.rowid = None`. -/
def tableDelete (t : TableSchema) (s : DBState) (i : Nat) : Except WurmErr DBState :=
  match s.obj i with
  | Option.none => .error .attrError
  | some obj =>
    match lookupA obj "rowid" with
    | some .none => .error .notPersisted
    | some _ =>
      match baseDelete t s i with
      | some s1 =>
        match s1.obj i with
        | some o => .ok { s1 with heap := setA s1.heap i (setA o "rowid" .none) }
        | Option.none => .error .keyError
      | Option.none => .error .keyError
    | Option.none => .error .attrError

/-! ## Relation resolution (`relation` in `src/wurm/tables.py`)

Python class identity (`ty is owner`) is modelled by table-name equality;
table names are globally unique in the modelled namespaces. -/

/-- A value reachable from the declaring module's namespace. -/
inductive NsVal where
  | table (t : TableSchema)
  | mod (entries : List (String × NsVal))
  | plain

/-- `getattr` during target resolution: only module-like namespaces have
the looked-up attributes (a missing attribute raises `AttributeError`). -/
def nsGet : NsVal → String → Option NsVal
  | .mod entries, name => lookupA entries name
  | _, _ => Option.none

def walkPath (ns : NsVal) : List String → Option NsVal
  | [] => some ns
  | n :: rest =>
    match nsGet ns n with
    | some v => walkPath v rest
    | Option.none => Option.none

/-- `self.target.split('.')` (Python `str.split`, every piece kept). -/
def targetPath (target : String) : List String :=
  (splitSep '.' target.data).map String.mk

/-- `ty is owner` for a `__fields_info__` entry. -/
def tyIsOwner (ty : PyType) (owner : TableSchema) : Bool :=
  match ty with
  | .fk (.mk n _) => n == owner.name
  | _ => false

/-- `relation._find_target(owner)` from `tables.py`: walk the dotted
target through the declaring namespace; if the walk (minus the last
segment) lands on a table the last segment names the field, else resolve
the last segment too and search the target's fields for exactly one whose
declared type is the owner. -/
def findTarget (owner : TableSchema) (relName target : String) (ns : NsVal) :
    Except WurmErr (TableSchema × String) :=
  match walkPath ns (targetPath target).dropLast with
  | Option.none => .error .attrError
  | some nsv =>
    match (targetPath target).getLast? with
    | Option.none => .error .attrError
    | some lastSeg =>
      match nsv with
      | .table targetTable =>
        match lookupA targetTable.fields lastSeg with
        | Option.none => .error .keyError
        | some ty =>
          if tyIsOwner ty owner then .ok (targetTable, lastSeg)
          else .error (.wrongRelationType target owner.name relName)
      | _ =>
        match nsGet nsv lastSeg with
        | Option.none => .error .attrError
        | some nsv2 =>
          match nsv2 with
          | .table targetTable =>
            match targetTable.fields.filter (fun p => tyIsOwner p.2 owner) with
            | [] => .error (.noMatchingField targetTable.name owner.name relName)
            | [p] => .ok (targetTable, p.1)
            | ps => .error (.ambiguousRelation targetTable.name owner.name relName
                (ps.map (fun p => p.1)))
          | _ => .error (.invalidTarget target owner.name relName)

/-- `relation.__get__` on an instance: resolve the target (memoization not
modelled — resolution is pure, so re-running it is observationally equal),
build `Query(target_table, {target_attr: instance})`, and return the query
(`lazy='query'`) or its materialized list. -/
def relationGet (attach : String → DBState → Nat → DBState) (lazy : String)
    (owner : TableSchema) (relName target : String) (ns : NsVal)
    (instVal : PyValue) (s : DBState) :
    Except WurmErr (QueryData ⊕ (DBState × List Nat)) :=
  match findTarget owner relName target ns with
  | .error e => .error e
  | .ok (tt, attr) =>
    match mkQuery tt [(attr, .raw instVal)] with
    | .error e => .error e
    | .ok q =>
      if lazy = "query" then .ok (.inl q)
      else
        match select_with_limit attach q Option.none s with
        | some r => .ok (.inr r)
        | Option.none => .error .decodeFailure

/-! ## Concrete example schemas (used by counterexamples and witnesses) -/

/-- The `Point(Table)` example: implicit `rowid` identity plus two integer
fields. -/
def pointSchema : TableSchema :=
  ⟨"Point", [("rowid", .prim .pint), ("x", .prim .pint), ("y", .prim .pint)], ["rowid"], []⟩

/-- A fresh `Point(x=1, y=2)` (never inserted: `rowid is None`) living at
heap id 0, with an empty `Point` table. -/
def pointState : DBState :=
  ⟨[("Point", [])], [], [(0, [("rowid", PyValue.none), ("x", .vint 1), ("y", .vint 2)])], 1⟩

/-! ## Well-formed schemas and encoded-row/decode alignment

`wurm` only consumes the columns `columns_for` declares when decoding, so
encode/decode alignment holds on schemas whose foreign keys target tables
with scalar primary-key fields (the shape exercised throughout the
package's tests; deeper targets crash the source on decode). -/

/-- A declared type whose encoded columns are exactly `columns_for`:
scalars, nonempty composites, and foreign keys to nonempty scalar-field
primary keys. -/
def wfTypeB : PyType → Bool
  | .prim _ => true
  | .comp shape => !shape.isEmpty
  | .fk (.mk _ pkFields) =>
    !pkFields.isEmpty && pkFields.all (fun pkf =>
      match pkf.2 with
      | .prim _ => true
      | _ => false)

def wfSchemaB (t : TableSchema) : Bool :=
  t.fields.all (fun p => wfTypeB p.2) && decide ((tableColumns t).Nodup)

/-- Every field value of the instance is representable at its declared
type. -/
def objTyped (t : TableSchema) (obj : Obj) : Bool :=
  t.fields.all (fun p =>
    match lookupA obj p.1 with
    | some v => representable v p.2
    | Option.none => false)

/-- The state after `Point(1, 2).insert()` against `pointState`: the row
`(1, 1, 2)` stored, the rowid assigned, and the instance registered under
key `(1)`. -/
def insertedPointState : DBState :=
  ⟨[("Point", [[SQLValue.int 1, .int 1, .int 2]])],
   [("Point", [([SQLValue.int 1], 0)])],
   [(0, [("rowid", PyValue.vint 1), ("x", .vint 1), ("y", .vint 2)])], 1⟩

/-! ## C7: relation resolution -/

/-- The specification-side notion of "the row refers to the owner": every
compiled key column of the row literally equals the corresponding encoded
value. -/
def refersTo (tt : TableSchema) (triples : List (String × String × SQLValue))
    (r : List SQLValue) : Bool :=
  triples.all (fun tr =>
    match (tableColumns tt).indexOf? tr.1 with
    | some idx => decide (r.get? idx = some tr.2.2)
    | Option.none => false)

/-! ## Theorems -/

theorem isDigitChar_digitChar (n : Nat) : isDigitChar (digitChar n) = true := by
  unfold digitChar
  split_ifs <;> decide

theorem charDigit_digitChar {n : Nat} (h : n < 10) : charDigit (digitChar n) = n := by
  interval_cases n <;> decide

theorem parse2_twoDigits {n : Nat} (h : n < 100) :
    parse2 (digitChar (n / 10)) (digitChar (n % 10)) = n := by
  have h1 : n / 10 < 10 := by omega
  have h2 : n % 10 < 10 := by omega
  unfold parse2
  rw [charDigit_digitChar h1, charDigit_digitChar h2]
  omega

theorem parse4_fourDigits {n : Nat} (h : n < 10000) :
    parse4 (digitChar (n / 1000)) (digitChar (n / 100 % 10)) (digitChar (n / 10 % 10))
      (digitChar (n % 10)) = n := by
  have h1 : n / 1000 < 10 := by omega
  have h2 : n / 100 % 10 < 10 := by omega
  have h3 : n / 10 % 10 < 10 := by omega
  have h4 : n % 10 < 10 := by omega
  unfold parse4
  rw [charDigit_digitChar h1, charDigit_digitChar h2, charDigit_digitChar h3,
    charDigit_digitChar h4]
  omega

theorem parse6_sixDigits {n : Nat} (h : n < 1000000) :
    parse6 (digitChar (n / 100000)) (digitChar (n / 10000 % 10)) (digitChar (n / 1000 % 10))
      (digitChar (n / 100 % 10)) (digitChar (n / 10 % 10)) (digitChar (n % 10)) = n := by
  have h1 : n / 100000 < 10 := by omega
  have h2 : n / 10000 % 10 < 10 := by omega
  have h3 : n / 1000 % 10 < 10 := by omega
  have h4 : n / 100 % 10 < 10 := by omega
  have h5 : n / 10 % 10 < 10 := by omega
  have h6 : n % 10 < 10 := by omega
  unfold parse6
  rw [charDigit_digitChar h1, charDigit_digitChar h2, charDigit_digitChar h3,
    charDigit_digitChar h4, charDigit_digitChar h5, charDigit_digitChar h6]
  omega

theorem daysInMonth_le (y m : Nat) : daysInMonth y m ≤ 31 := by
  unfold daysInMonth
  split
  · split <;> omega
  · split <;> omega

theorem dateFromIso_dateToIso {d : PyDate} (h : d.validB = true) :
    dateFromIso (dateToIso d) = some d := by
  obtain ⟨y, m, dy⟩ := d
  have hdm : daysInMonth y m ≤ 31 := daysInMonth_le y m
  simp only [PyDate.validB, Bool.and_eq_true, decide_eq_true_eq] at h
  have hm : m < 100 := by omega
  have hd : dy < 100 := by omega
  have hy : y < 10000 := by omega
  show dateFromChars (dateChars ⟨y, m, dy⟩) = some ⟨y, m, dy⟩
  simp only [dateChars, fourDigits, twoDigits, List.cons_append, List.nil_append,
    dateFromChars, isDigitChar_digitChar, Bool.and_true, Bool.true_and]
  rw [if_pos (by simp [isDigitChar_digitChar])]
  rw [parse4_fourDigits hy, parse2_twoDigits hm, parse2_twoDigits hd]
  rw [if_pos]
  simp only [PyDate.validB, Bool.and_eq_true, decide_eq_true_eq]
  omega

theorem timeFromChars_noMicro (h1 h2 m1 m2 s1 s2 : Char) :
    timeFromChars [h1, h2, ':', m1, m2, ':', s1, s2] =
      if (isDigitChar h1 && isDigitChar h2 && isDigitChar m1 && isDigitChar m2 &&
          isDigitChar s1 && isDigitChar s2) = true then
        if (⟨parse2 h1 h2, parse2 m1 m2, parse2 s1 s2, 0⟩ : PyTime).validB = true then
          some ⟨parse2 h1 h2, parse2 m1 m2, parse2 s1 s2, 0⟩
        else none
      else none := rfl

theorem timeFromChars_withMicro (h1 h2 m1 m2 s1 s2 u1 u2 u3 u4 u5 u6 : Char) :
    timeFromChars [h1, h2, ':', m1, m2, ':', s1, s2, '.', u1, u2, u3, u4, u5, u6] =
      if (isDigitChar h1 && isDigitChar h2 && isDigitChar m1 && isDigitChar m2 &&
          isDigitChar s1 && isDigitChar s2 && isDigitChar u1 && isDigitChar u2 &&
          isDigitChar u3 && isDigitChar u4 && isDigitChar u5 && isDigitChar u6) = true then
        if (⟨parse2 h1 h2, parse2 m1 m2, parse2 s1 s2, parse6 u1 u2 u3 u4 u5 u6⟩ :
            PyTime).validB = true then
          some ⟨parse2 h1 h2, parse2 m1 m2, parse2 s1 s2, parse6 u1 u2 u3 u4 u5 u6⟩
        else none
      else none := rfl

theorem timeFromChars_timeChars {t : PyTime} (h : t.validB = true) :
    timeFromChars (timeChars t) = some t := by
  obtain ⟨hh, mm, ss, us⟩ := t
  simp only [PyTime.validB, Bool.and_eq_true, decide_eq_true_eq] at h
  have hh' : hh < 100 := by omega
  have hm' : mm < 100 := by omega
  have hs' : ss < 100 := by omega
  have hu' : us < 1000000 := by omega
  by_cases hus : us = 0
  · subst hus
    simp only [timeChars, twoDigits, eq_self_iff_true, if_true, List.cons_append,
      List.nil_append, List.append_nil]
    rw [timeFromChars_noMicro]
    rw [if_pos (by simp [isDigitChar_digitChar])]
    rw [parse2_twoDigits hh', parse2_twoDigits hm', parse2_twoDigits hs']
    rw [if_pos]
    simp only [PyTime.validB, Bool.and_eq_true, decide_eq_true_eq]
    omega
  · simp only [timeChars, twoDigits, sixDigits, if_neg hus, List.cons_append,
      List.nil_append]
    rw [timeFromChars_withMicro]
    rw [if_pos (by simp [isDigitChar_digitChar])]
    rw [parse2_twoDigits hh', parse2_twoDigits hm', parse2_twoDigits hs',
      parse6_sixDigits hu']
    rw [if_pos]
    simp only [PyTime.validB, Bool.and_eq_true, decide_eq_true_eq]
    omega

theorem timeFromIso_timeToIso {t : PyTime} (h : t.validB = true) :
    timeFromIso (timeToIso t) = some t :=
  timeFromChars_timeChars h

theorem datetimeFromChars_cons (a b c d e f g i j k sep : Char) (rest : List Char) :
    datetimeFromChars (a :: b :: c :: d :: e :: f :: g :: i :: j :: k :: sep :: rest) =
      match dateFromChars [a, b, c, d, e, f, g, i, j, k], timeFromChars rest with
      | some dd, some t => some ⟨dd, t⟩
      | _, _ => none := rfl

theorem datetimeFromIso_datetimeToIso {dt : PyDateTime} (h : dt.validB = true) :
    datetimeFromIso (datetimeToIso dt) = some dt := by
  obtain ⟨d, t⟩ := dt
  simp only [PyDateTime.validB, Bool.and_eq_true] at h
  have hd := dateFromIso_dateToIso h.1
  have ht := timeFromChars_timeChars h.2
  show datetimeFromChars (datetimeChars ⟨d, t⟩) = some ⟨d, t⟩
  obtain ⟨y, m, dy⟩ := d
  have hd' : dateFromChars (dateChars ⟨y, m, dy⟩) = some ⟨y, m, dy⟩ := hd
  simp only [dateChars, fourDigits, twoDigits, List.cons_append, List.nil_append] at hd'
  simp only [datetimeChars, dateChars, fourDigits, twoDigits, List.cons_append,
    List.nil_append]
  rw [datetimeFromChars_cons, hd', ht]

theorem splitSep_ne_nil (sep : Char) (cs : List Char) : splitSep sep cs ≠ [] := by
  cases cs with
  | nil => simp [splitSep]
  | cons c cs =>
    unfold splitSep
    split
    · simp
    · split <;> simp

theorem splitSep_no_sep {sep : Char} {cs : List Char} (h : sep ∉ cs) :
    splitSep sep cs = [cs] := by
  induction cs with
  | nil => rfl
  | cons c cs ih =>
    have hc : c ≠ sep := fun hc => h (hc ▸ List.mem_cons_self c cs)
    have ih' := ih (fun hm => h (List.mem_cons_of_mem c hm))
    rw [show splitSep sep (c :: cs) =
        (match splitSep sep cs with
        | [] => [[]]
        | g :: gs => if c = sep then [] :: g :: gs else (c :: g) :: gs) from rfl]
    rw [ih']
    simp [hc]

theorem splitSep_append {sep : Char} {x rest : List Char} (h : sep ∉ x) :
    splitSep sep (x ++ sep :: rest) = x :: splitSep sep rest := by
  induction x with
  | nil =>
    simp only [List.nil_append, splitSep]
    match hr : splitSep sep rest with
    | [] => exact absurd hr (splitSep_ne_nil sep rest)
    | g :: gs => simp
  | cons c x ih =>
    have hc : c ≠ sep := fun hc => h (hc ▸ List.mem_cons_self c x)
    have ih' := ih (fun hm => h (List.mem_cons_of_mem c hm))
    rw [List.cons_append]
    rw [show splitSep sep (c :: (x ++ sep :: rest)) =
        (match splitSep sep (x ++ sep :: rest) with
        | [] => [[]]
        | g :: gs => if c = sep then [] :: g :: gs else (c :: g) :: gs) from rfl]
    rw [ih']
    simp [hc]

theorem splitSep_joinSep {sep : Char} {pieces : List (List Char)}
    (hne : pieces ≠ []) (h : ∀ p ∈ pieces, sep ∉ p) :
    splitSep sep (joinSep sep pieces) = pieces := by
  induction pieces with
  | nil => exact absurd rfl hne
  | cons x xs ih =>
    cases xs with
    | nil =>
      simp only [joinSep]
      exact splitSep_no_sep (h x (List.mem_cons_self x []))
    | cons y ys =>
      have hx : sep ∉ x := h x (List.mem_cons_self x (y :: ys))
      have ih' := ih (by simp) (fun p hp => h p (List.mem_cons_of_mem x hp))
      simp only [joinSep, splitSep_append hx, ih']

theorem mk_data (s : String) : String.mk s.data = s := rfl

theorem data_mk (l : List Char) : (String.mk l).data = l := rfl

theorem joinSep_cons (sep : Char) (x : List Char) (xs : List (List Char)) :
    joinSep sep (x :: xs) = x ++ (if xs.isEmpty then [] else sep :: joinSep sep xs) := by
  cases xs <;> simp [joinSep]

theorem parsePath_pathStr {p : PyPath} (h : p.valid) : parsePath (pathStr p) = p := by
  obtain ⟨abs, parts⟩ := p
  cases parts with
  | nil =>
    cases abs <;> rfl
  | cons q qs =>
    have hsplit : splitSep '/' (joinSep '/' ((q :: qs).map String.data)) =
        (q :: qs).map String.data := by
      apply splitSep_joinSep (by simp)
      intro piece hp
      rw [List.mem_map] at hp
      obtain ⟨c, hc, rfl⟩ := hp
      exact (h c hc).2.2
    have hmk : ((q :: qs).map String.data).map String.mk = q :: qs := by
      rw [List.map_map]
      have : (String.mk ∘ String.data) = id := by
        funext s
        rfl
      rw [this, List.map_id]
    have hfilter : (q :: qs).filter (fun c => c ≠ "" && c ≠ ".") = q :: qs := by
      apply List.filter_eq_self.mpr
      intro c hc
      have := h c hc
      simp [this.1, this.2.1]
    cases abs with
    | false =>
      have habs : startsWithSlash (joinSep '/' ((q :: qs).map String.data)) = false := by
        have hq := h q (List.mem_cons_self q qs)
        rcases hqd : q.data with _ | ⟨c, cs⟩
        · have hq'' : q = "" := by
            have := congrArg String.mk hqd
            rwa [mk_data] at this
          exact absurd hq'' hq.1
        · have hc : c ≠ '/' := by
            intro hcontra
            exact hq.2.2 (by rw [hqd, hcontra]; exact List.mem_cons_self _ _)
          rw [List.map_cons, joinSep_cons, hqd]
          simp [startsWithSlash, hc]
      have hpc : pathChars ⟨false, q :: qs⟩ = joinSep '/' ((q :: qs).map String.data) := by
        simp [pathChars]
      show parsePath (String.mk (pathChars ⟨false, q :: qs⟩)) = _
      rw [hpc]
      unfold parsePath
      rw [data_mk, hsplit, hmk, hfilter, habs]
    | true =>
      have hpc : pathChars ⟨true, q :: qs⟩ =
          '/' :: joinSep '/' ((q :: qs).map String.data) := by
        simp [pathChars]
      show parsePath (String.mk (pathChars ⟨true, q :: qs⟩)) = _
      rw [hpc]
      unfold parsePath
      have hs : splitSep '/' ('/' :: joinSep '/' ((q :: qs).map String.data)) =
          [] :: (q :: qs).map String.data := by
        have h0 : ('/' :: joinSep '/' ((q :: qs).map String.data)) =
            [] ++ '/' :: joinSep '/' ((q :: qs).map String.data) := rfl
        rw [h0, splitSep_append (by simp), hsplit]
      rw [data_mk, hs]
      rw [show List.map String.mk ([] :: (q :: qs).map String.data) =
          String.mk [] :: List.map String.mk ((q :: qs).map String.data) from rfl]
      rw [show String.mk [] = "" from rfl]
      rw [List.filter_cons_of_neg (by decide)]
      rw [hmk, hfilter]
      rw [show startsWithSlash ('/' :: joinSep '/' ((q :: qs).map String.data)) = true
        from rfl]

/-! ## Encode/decode roundtrip for registered types -/

theorem encodePrim_spec {p : PrimType} {v : PyValue} (h : typedVal v (.prim p) = true) :
    ∃ sv, encodePrim p v = some sv ∧ sv ≠ .null ∧ decodePrim p sv = some v := by
  cases p <;> cases v <;> simp only [typedVal] at h <;> try simp at h
  · exact ⟨.int _, rfl, by simp, rfl⟩
  · exact ⟨.text _, rfl, by simp, rfl⟩
  · exact ⟨.real _, rfl, by simp, rfl⟩
  · exact ⟨.blob _, rfl, by simp, rfl⟩
  · rename_i b
    refine ⟨.int (if b then 1 else 0), rfl, by simp, ?_⟩
    cases b <;> rfl
  · rename_i d
    refine ⟨.text (dateToIso d), rfl, by simp, ?_⟩
    show (dateFromIso (dateToIso d)).map PyValue.vdate = some (.vdate d)
    rw [dateFromIso_dateToIso h]
    rfl
  · rename_i t
    refine ⟨.text (timeToIso t), rfl, by simp, ?_⟩
    show (timeFromIso (timeToIso t)).map PyValue.vtime = some (.vtime t)
    rw [timeFromIso_timeToIso h]
    rfl
  · rename_i dt
    refine ⟨.text (datetimeToIso dt), rfl, by simp, ?_⟩
    show (datetimeFromIso (datetimeToIso dt)).map PyValue.vdatetime = some (.vdatetime dt)
    rw [datetimeFromIso_datetimeToIso h]
    rfl
  · rename_i pa
    refine ⟨.text (pathStr pa), rfl, by simp, ?_⟩
    show some (PyValue.vpath (parsePath (pathStr pa))) = some (.vpath pa)
    rw [parsePath_pathStr h]

theorem encodeBase_spec {k : BaseKind} {w : PyValue} (h : typedBase w k = true) :
    ∃ sv, encodeBase k w = some sv ∧ sv ≠ .null ∧ sqlToPy sv = w := by
  cases k <;> cases w <;> simp_all [typedBase, encodeBase, sqlToPy]

theorem encodeComp_spec (f : String) {shape : List (String × BaseKind)}
    {vals : List PyValue} (h : typedBases vals shape = true) :
    ∃ enc, encodeCompFields f shape vals = some enc ∧
      enc.map Prod.fst = shape.map (fun kv => f ++ "_" ++ kv.1) ∧
      (enc.map Prod.snd).map sqlToPy = vals ∧
      (∀ sv ∈ enc.map Prod.snd, sv ≠ SQLValue.null) := by
  induction shape generalizing vals with
  | nil =>
    cases vals with
    | nil => exact ⟨[], rfl, rfl, rfl, by simp⟩
    | cons w ws => simp [typedBases] at h
  | cons kv ks ih =>
    cases vals with
    | nil => simp [typedBases] at h
    | cons w ws =>
      simp only [typedBases, Bool.and_eq_true] at h
      obtain ⟨sv, hsv, hnn, hrt⟩ := encodeBase_spec h.1
      obtain ⟨enc, henc, hfst, hsnd, hnull⟩ := ih h.2
      refine ⟨(f ++ "_" ++ kv.1, sv) :: enc, ?_, by simp [hfst], by simp [hsnd, hrt], ?_⟩
      · simp only [encodeCompFields, hsv, henc]
      · intro x hx
        simp only [List.map_cons, List.mem_cons] at hx
        rcases hx with h0 | h0
        · rw [h0]; exact hnn
        · exact hnull x (by simpa using h0)

theorem all_null_map_const {β : Type} (l : List β) :
    ((l.map (fun _ => SQLValue.null)).all (fun sv => sv = .null)) = true := by
  induction l <;> simp_all

/-- Encoding `None` yields a null for every declared column, and that
all-null tuple decodes back to `None`. -/
theorem to_stored_none_spec (f : String) (ty : PyType) :
    to_stored f ty .none = some ((columns_for f ty).map (fun c => (c, SQLValue.null))) ∧
    from_stored (((columns_for f ty).map (fun c => (c, SQLValue.null))).map Prod.snd) ty =
      some .none := by
  constructor
  · simp [to_stored]
  · have hm : (((columns_for f ty).map (fun c => (c, SQLValue.null))).map Prod.snd) =
        (columns_for f ty).map (fun _ => SQLValue.null) := by
      rw [List.map_map]
      rfl
    rw [hm]
    simp only [from_stored]
    rw [if_pos (all_null_map_const _)]

theorem representable_ne_none {v : PyValue} {ty : PyType} (hv : representable v ty = true)
    (hne : v ≠ .none) : typedVal v ty = true := by
  cases v
  · exact absurd rfl hne
  all_goals simpa [representable] using hv

theorem to_stored_from_stored_prim {f : String} {p : PrimType} {v : PyValue}
    (hv : typedVal v (.prim p) = true) :
    ∃ enc, to_stored f (.prim p) v = some enc ∧ enc.map Prod.fst = [f] ∧
      from_stored (enc.map Prod.snd) (.prim p) = some v := by
  have hne : v ≠ .none := by
    intro h0
    rw [h0] at hv
    simp [typedVal] at hv
  obtain ⟨sv, hsv, hnn, hdec⟩ := encodePrim_spec hv
  refine ⟨[(f, sv)], ?_, by simp, by simp [from_stored, hnn, hdec]⟩
  cases v <;> first
    | exact absurd rfl hne
    | simp [to_stored, hsv]

theorem to_stored_from_stored_comp {f : String} {shape : List (String × BaseKind)}
    {v : PyValue} (hne : shape ≠ []) (hv : typedVal v (.comp shape) = true) :
    ∃ enc, to_stored f (.comp shape) v = some enc ∧
      enc.map Prod.fst = columns_for f (.comp shape) ∧
      from_stored (enc.map Prod.snd) (.comp shape) = some v := by
  cases v <;> simp only [typedVal] at hv <;> try simp at hv
  rename_i vals
  obtain ⟨enc, henc, hfst, hsnd, hnull⟩ := encodeComp_spec f hv
  have hlen : enc.length = shape.length := by
    simpa using congrArg List.length hfst
  have hencne : enc ≠ [] := by
    intro h0
    rw [h0] at hlen
    cases shape with
    | nil => exact hne rfl
    | cons a l => simp at hlen
  have hallf : ((enc.map Prod.snd).all (fun sv => sv = .null)) = false := by
    cases enc with
    | nil => exact absurd rfl hencne
    | cons e es =>
      have hn : e.2 ≠ SQLValue.null := hnull e.2 (by simp)
      simp [hn]
  refine ⟨enc, by simp [to_stored, henc], by simpa [columns_for] using hfst, ?_⟩
  simp only [from_stored, hallf]
  rw [if_neg (by simp)]
  rw [if_pos (by simp [hlen])]
  rw [hsnd]

/-- Shared roundtrip lemma for registered (non-foreign-key) types: encoding
a representable value succeeds, produces exactly the declared columns, and
decoding the stored tuple gives the value back; `None` is stored as a null
for every column. -/
theorem to_stored_from_stored {f : String} {ty : PyType} {v : PyValue}
    (hreg : ty.registeredB = true) (hv : representable v ty = true) :
    ∃ enc, to_stored f ty v = some enc ∧
      enc.map Prod.fst = columns_for f ty ∧
      from_stored (enc.map Prod.snd) ty = some v ∧
      (v = .none → enc = (columns_for f ty).map (fun c => (c, SQLValue.null))) := by
  by_cases hvn : v = .none
  · subst hvn
    obtain ⟨h1, h2⟩ := to_stored_none_spec f ty
    refine ⟨_, h1, ?_, h2, fun _ => rfl⟩
    rw [List.map_map]
    exact List.map_id _
  · have hv' := representable_ne_none hv hvn
    cases ty with
    | fk t => simp [PyType.registeredB] at hreg
    | prim p =>
      obtain ⟨enc, h1, h2, h3⟩ := @to_stored_from_stored_prim f _ _ hv'
      exact ⟨enc, h1, by simpa [columns_for] using h2, h3, fun hcon => absurd hcon hvn⟩
    | comp shape =>
      have hne : shape ≠ [] := by
        cases shape with
        | nil => simp [PyType.registeredB] at hreg
        | cons a l => simp
      obtain ⟨enc, h1, h2, h3⟩ := @to_stored_from_stored_comp f _ _ hne hv'
      exact ⟨enc, h1, h2, h3, fun hcon => absurd hcon hvn⟩

/-! Basic identity-map lemmas. -/

theorem getObject_hit {attach : String → DBState → Nat → DBState} {t : TableSchema}
    {s : DBState} {pk : List SQLValue} {values : Option Obj} {i : Nat}
    (h : lookupA (s.idMapOf t.name) pk = some i) :
    getObject attach t s pk values = some (s, i) := by
  unfold getObject
  rw [h]

theorem getObject_registers {attach : String → DBState → Nat → DBState} {t : TableSchema}
    {s s2 : DBState} {pk : List SQLValue} {values : Option Obj} {j : Nat}
    (h : getObject attach t s pk values = some (s2, j)) :
    lookupA (s2.idMapOf t.name) pk = some j := by
  unfold getObject at h
  cases hhit : lookupA (s.idMapOf t.name) pk with
  | some i =>
    rw [hhit] at h
    cases h
    exact hhit
  | none =>
    rw [hhit] at h
    cases values with
    | none => exact absurd h (by simp)
    | some vs =>
      simp only at h
      generalize hA : afterStrict attach t (registerNew t s pk vs) s.nextId = sA at h
      cases hfin : lookupA (sA.idMapOf t.name) pk with
      | some j2 =>
        rw [hfin] at h
        cases h
        exact hfin
      | none =>
        rw [hfin] at h
        exact absurd h (by simp)

/-- The primary-key tuple and the leftover computed by the `decode_row`
field loop depend only on the row, not on the state it decodes against. -/
theorem decodeRowGo_pk_state_indep {s s' : DBState} {pkNames : List String}
    {fields : List (String × PyType)} {row : List SQLValue}
    {v1 v2 : Obj} {pk1 pk2 leftover1 leftover2 : List SQLValue}
    (h1 : decodeRowGo s pkNames fields row = some (v1, pk1, leftover1))
    (h2 : decodeRowGo s' pkNames fields row = some (v2, pk2, leftover2)) :
    pk1 = pk2 ∧ leftover1 = leftover2 := by
  induction fields generalizing row v1 v2 pk1 pk2 leftover1 leftover2 with
  | nil =>
    rw [decodeRowGo] at h1 h2
    cases h1
    cases h2
    exact ⟨rfl, rfl⟩
  | cons fld rest ih =>
    rw [decodeRowGo] at h1 h2
    cases hd1 : decodeFieldS s (row.take (columns_for fld.1 fld.2).length) fld.2 with
    | none => rw [hd1] at h1; exact absurd h1 (by simp)
    | some w1 =>
      cases hr1 : decodeRowGo s pkNames rest (row.drop (columns_for fld.1 fld.2).length) with
      | none => rw [hd1, hr1] at h1; exact absurd h1 (by simp)
      | some tri1 =>
        cases hd2 : decodeFieldS s' (row.take (columns_for fld.1 fld.2).length) fld.2 with
        | none => rw [hd2] at h2; exact absurd h2 (by simp)
        | some w2 =>
          cases hr2 : decodeRowGo s' pkNames rest (row.drop (columns_for fld.1 fld.2).length) with
          | none => rw [hd2, hr2] at h2; exact absurd h2 (by simp)
          | some tri2 =>
            obtain ⟨va1, pka1, lo1⟩ := tri1
            obtain ⟨va2, pka2, lo2⟩ := tri2
            rw [hd1, hr1] at h1
            rw [hd2, hr2] at h2
            simp only [Option.some.injEq, Prod.mk.injEq] at h1 h2
            obtain ⟨ihpk, ihlo⟩ := ih hr1 hr2
            constructor
            · rw [← h1.2.1, ← h2.2.1, ihpk]
            · rw [← h1.2.2, ← h2.2.2, ihlo]

/-! ## Association-list and executor lemmas -/

theorem lookupA_setA_self {κ α : Type} [DecidableEq κ] (l : List (κ × α)) (k : κ) (v : α) :
    lookupA (setA l k v) k = some v := by
  induction l with
  | nil => simp [setA, lookupA]
  | cons p rest ih =>
    obtain ⟨k2, w⟩ := p
    by_cases hk : k2 = k
    · subst hk
      simp [setA, lookupA]
    · simp [setA, lookupA, hk, ih]

theorem lookupA_setA_ne {κ α : Type} [DecidableEq κ] (l : List (κ × α)) (k k2 : κ) (v : α)
    (h : k2 ≠ k) : lookupA (setA l k v) k2 = lookupA l k2 := by
  induction l with
  | nil => simp [setA, lookupA, Ne.symm h]
  | cons p rest ih =>
    obtain ⟨k3, w⟩ := p
    by_cases hk : k3 = k
    · subst hk
      simp only [setA, if_pos rfl, lookupA]
      rw [if_neg (fun h2 => h h2.symm), if_neg (fun h2 => h h2.symm)]
    · simp only [setA, if_neg hk, lookupA]
      by_cases hk2 : k3 = k2
      · rw [if_pos hk2, if_pos hk2]
      · rw [if_neg hk2, if_neg hk2, ih]

theorem rowsOf_setTables_self (s : DBState) (name : String) (rows : List (List SQLValue)) :
    ({ s with tables := setA s.tables name rows } : DBState).rowsOf name = rows := by
  unfold DBState.rowsOf
  simp [lookupA_setA_self]

theorem selectDecode_length {attach : String → DBState → Nat → DBState} {t : TableSchema}
    {s s2 : DBState} {rows : List (List SQLValue)} {is : List Nat}
    (h : selectDecode attach t s rows = some (s2, is)) : is.length = rows.length := by
  induction rows generalizing s s2 is with
  | nil =>
    rw [selectDecode] at h
    cases h
    rfl
  | cons r rs ih =>
    rw [selectDecode] at h
    cases hd : decodeRow attach t s r with
    | none => rw [hd] at h; exact absurd h (by simp)
    | some p =>
      obtain ⟨s1, i⟩ := p
      simp only [hd] at h
      cases hrest : selectDecode attach t s1 rs with
      | none =>
        simp only [hrest] at h
        exact absurd h (by simp)
      | some p2 =>
        obtain ⟨s3, is2⟩ := p2
        simp only [hrest, Option.some.injEq, Prod.mk.injEq] at h
        rw [← h.2]
        simp [ih hrest]

/-! ## Identity-map routing through `decode_row` -/

/-- Decoding a row whose computed primary-key tuple is already cached
returns the cached instance and leaves the state untouched (the freshly
decoded values are discarded). -/
theorem decodeRow_cached {attach : String → DBState → Nat → DBState} {t : TableSchema}
    {s : DBState} {row : List SQLValue} {values : Obj} {pk leftover : List SQLValue}
    {i : Nat}
    (hgo : decodeRowGo s t.primaryKey t.fields row = some (values, pk, leftover))
    (hhit : lookupA (s.idMapOf t.name) pk = some i) :
    decodeRow attach t s row = if leftover.isEmpty then some (s, i) else Option.none := by
  unfold decodeRow
  simp only [hgo]
  by_cases hl : leftover.isEmpty
  · rw [if_pos hl, if_pos hl, getObject_hit hhit]
  · rw [if_neg hl, if_neg hl]

/-- A successful `decode_row` leaves the row's key mapped to the returned
instance. -/
theorem decodeRow_registers {attach : String → DBState → Nat → DBState} {t : TableSchema}
    {s s2 : DBState} {row : List SQLValue} {j : Nat}
    (h : decodeRow attach t s row = some (s2, j)) :
    ∃ values pk leftover, decodeRowGo s t.primaryKey t.fields row = some (values, pk, leftover) ∧
      leftover = [] ∧ lookupA (s2.idMapOf t.name) pk = some j := by
  unfold decodeRow at h
  cases hgo : decodeRowGo s t.primaryKey t.fields row with
  | none => rw [hgo] at h; exact absurd h (by simp)
  | some tri =>
    obtain ⟨values, pk, leftover⟩ := tri
    simp only [hgo] at h
    by_cases hl : leftover.isEmpty
    · rw [if_pos hl] at h
      exact ⟨values, pk, leftover, rfl, by simpa using hl, getObject_registers h⟩
    · rw [if_neg hl] at h
      exact absurd h (by simp)

/-- Decoding the same stored row twice in sequence returns the same
instance reference, and the second decode does not change the state. -/
theorem decodeRow_twice {attach : String → DBState → Nat → DBState} {t : TableSchema}
    {s s1 s2 : DBState} {row : List SQLValue} {i1 i2 : Nat}
    (h1 : decodeRow attach t s row = some (s1, i1))
    (h2 : decodeRow attach t s1 row = some (s2, i2)) :
    i2 = i1 ∧ s2 = s1 := by
  obtain ⟨v1, pk1, lo1, hgo1, hlo1, hreg⟩ := decodeRow_registers h1
  unfold decodeRow at h2
  cases hgo2 : decodeRowGo s1 t.primaryKey t.fields row with
  | none => rw [hgo2] at h2; exact absurd h2 (by simp)
  | some tri =>
    obtain ⟨v2, pk2, lo2⟩ := tri
    obtain ⟨hpkeq, hloeq⟩ := decodeRowGo_pk_state_indep hgo2 hgo1
    simp only [hgo2] at h2
    rw [hloeq, hlo1] at h2
    rw [if_pos (by simp)] at h2
    rw [getObject_hit (by rw [hpkeq]; exact hreg)] at h2
    cases h2
    exact ⟨rfl, rfl⟩

/-! ## Claim support: `one()` cardinality -/

theorem only_first_cases {attach : String → DBState → Nat → DBState} {q : QueryData}
    {of : Nat} {s s1 : DBState} {is : List Nat}
    (hdec : selectDecode attach q.table s (execSelectRows s q (some of)) = some (s1, is)) :
    (is = [] → only_first attach q of s = .error (.notEnoughRows 1 0)) ∧
    (∀ i, is = [i] → only_first attach q of s = .ok (s1, i)) ∧
    (∀ a b tl, is = a :: b :: tl → only_first attach q of s = .error (.tooManyRows 1)) := by
  refine ⟨?_, ?_, ?_⟩
  · intro h0
    subst h0
    unfold only_first select_with_limit
    simp only [hdec]
  · intro i h0
    subst h0
    unfold only_first select_with_limit
    simp only [hdec]
  · intro a b tl h0
    subst h0
    unfold only_first select_with_limit
    simp only [hdec]

theorem execSelectRows_limit_length (s : DBState) (q : QueryData) (n : Nat) :
    (execSelectRows s q (some n)).length = min n (queryLen q s) := by
  simp [execSelectRows, queryLen]

/-- C3: `one()` executes with an internal row limit of 2
(`_only_first(of=2)`); matching zero rows gives the "not enough rows"
failure (`EmptyResultError` kind), exactly one row returns the single
decoded instance, and two or more rows give the "too many rows" failure
(`AmbiguousResultError` kind).  `hdec` says decoding the (at most two)
fetched rows itself raised no error. -/
theorem queryOne_trichotomy (attach : String → DBState → Nat → DBState) (q : QueryData)
    (s : DBState) {s1 : DBState} {is : List Nat}
    (hdec : selectDecode attach q.table s (execSelectRows s q (some 2)) = some (s1, is)) :
    (queryLen q s = 0 → queryOne attach q s = .error (.notEnoughRows 1 0)) ∧
    (queryLen q s = 1 → ∃ i, is = [i] ∧ queryOne attach q s = .ok (s1, i)) ∧
    (2 ≤ queryLen q s → queryOne attach q s = .error (.tooManyRows 1)) := by
  have hlen : is.length = min 2 (queryLen q s) := by
    rw [selectDecode_length hdec, execSelectRows_limit_length]
  obtain ⟨hc0, hc1, hc2⟩ := only_first_cases hdec
  have hone : queryOne attach q s = only_first attach q 2 s := rfl
  refine ⟨?_, ?_, ?_⟩
  · intro h0
    rw [h0] at hlen
    rw [hone, hc0 (List.length_eq_zero.mp (by omega))]
  · intro h1
    rw [h1] at hlen
    match is, hlen with
    | [i], _ => exact ⟨i, rfl, by rw [hone, hc1 i rfl]⟩
  · intro h2
    have hl2 : is.length = 2 := by omega
    match is, hl2 with
    | [a, b], _ => rw [hone, hc2 a b [] rfl]

/-- C4: `delete()` on a query built with no filters compiles to an empty
predicate, issues the unconditional statement `delete from <table> `,
reports the whole table's row count as affected, leaves the table empty,
and a subsequent `count()` is 0. -/
theorem queryDelete_no_filters (t : TableSchema) (s : DBState) :
    mkQuery t [] = .ok ⟨t, []⟩ ∧
    QueryData.comparisons ⟨t, []⟩ = "" ∧
    sqlDelete t (QueryData.comparisons ⟨t, []⟩) = "delete from " ++ t.name ++ " " ∧
    queryDelete ⟨t, []⟩ s =
      ({ s with tables := setA s.tables t.name [] }, (s.rowsOf t.name).length) ∧
    (queryDelete ⟨t, []⟩ s).1.rowsOf t.name = [] ∧
    queryLen ⟨t, []⟩ ((queryDelete ⟨t, []⟩ s).1) = 0 := by
  have hkept : (s.rowsOf t.name).filter (fun r => !(rowMatches t [] r)) = [] := by
    simp [rowMatches]
  have hq : queryDelete ⟨t, []⟩ s =
      ({ s with tables := setA s.tables t.name [] }, (s.rowsOf t.name).length) := by
    show ({ s with tables :=
        (setA s.tables t.name ((s.rowsOf t.name).filter (fun r => !(rowMatches t [] r)))) },
      (s.rowsOf t.name).length -
        ((s.rowsOf t.name).filter (fun r => !(rowMatches t [] r))).length) = _
    rw [hkept]
    simp
  refine ⟨rfl, rfl, ?_, hq, ?_, ?_⟩
  · show "delete from " ++ t.name ++ " " ++
      (if ("" : String) = "" then "" else "where " ++ "") = _
    rw [if_pos rfl, String.append_empty]
  · simp [hq, rowsOf_setTables_self]
  · simp [queryLen, hq, rowsOf_setTables_self]

/-- C5: query construction is a pure function of the schema and the
filters (it takes no database state at all, so it cannot touch storage),
and it fails eagerly with the `UnknownFieldError` kind (`WurmError:
invalid query: <Table>.<field> does not exist`) exactly when some filter
key names neither a declared field nor the implicit `rowid` key (which is
part of `__fields_info__` for rowid tables).  `henc` says the values of
well-named filters are encodable, so no earlier `TypeError` intervenes. -/
theorem mkQuery_eager_unknown_field (t : TableSchema) (filters : List (String × FilterVal))
    (henc : ∀ key fv fld, (key, fv) ∈ filters →
      t.fields.find? (fun p => p.1 == key) = some fld →
      (to_stored key fld.2 (ensure_comparison fv).value).isSome = true) :
    (∀ key fv, (key, fv) ∈ filters →
        t.fields.find? (fun p => p.1 == key) = Option.none →
        ∃ k2, mkQuery t filters = .error (.unknownField t.name k2) ∧
          t.fields.find? (fun p => p.1 == k2) = Option.none) ∧
    ((∀ key fv, (key, fv) ∈ filters → (t.fields.find? (fun p => p.1 == key)).isSome = true) →
      ∃ q, mkQuery t filters = .ok q ∧ q.table = t) := by
  induction filters with
  | nil =>
    constructor
    · intro key fv hmem
      exact absurd hmem (by simp)
    · intro _
      exact ⟨⟨t, []⟩, rfl, rfl⟩
  | cons p rest ih =>
    obtain ⟨k, fv⟩ := p
    have henc' : ∀ key fv fld, (key, fv) ∈ rest →
        t.fields.find? (fun p => p.1 == key) = some fld →
        (to_stored key fld.2 (ensure_comparison fv).value).isSome = true :=
      fun key fv fld hm => henc key fv fld (List.mem_cons_of_mem _ hm)
    obtain ⟨ih1, ih2⟩ := ih henc'
    cases hfind : t.fields.find? (fun p => p.1 == k) with
    | none =>
      have herr : mkQuery t ((k, fv) :: rest) = .error (.unknownField t.name k) := by
        unfold mkQuery buildTriples encode_query_value
        rw [hfind]
      constructor
      · intro key fv2 hmem hnone
        exact ⟨k, herr, hfind⟩
      · intro hall
        have := hall k fv (List.mem_cons_self _ _)
        rw [hfind] at this
        exact absurd this (by simp)
    | some fld =>
      have hts := henc k fv fld (List.mem_cons_self _ _) hfind
      cases hts2 : to_stored k fld.2 (ensure_comparison fv).value with
      | none => rw [hts2] at hts; exact absurd hts (by simp)
      | some enc =>
        have hcons1 : buildTriples t ((k, fv) :: rest) =
            (match encode_query_value t k (ensure_comparison fv).value with
            | .error e => .error e
            | .ok enc2 =>
              match buildTriples t rest with
              | .error e => .error e
              | .ok tl =>
                .ok ((enc2.map (fun p => (p.1, (ensure_comparison fv).op, p.2))) ++ tl)) := rfl
        have hev : encode_query_value t k (ensure_comparison fv).value = .ok enc := by
          unfold encode_query_value
          simp only [hfind, hts2]
        constructor
        · intro key fv2 hmem hnone
          have hkey : key ≠ k := by
            intro hcon
            rw [hcon, hfind] at hnone
            exact absurd hnone (by simp)
          have hmem2 : (key, fv2) ∈ rest := by
            rcases List.mem_cons.mp hmem with hcon | h0
            · exact absurd (congrArg Prod.fst hcon) hkey
            · exact h0
          obtain ⟨k2, herr2, hk2⟩ := ih1 key fv2 hmem2 hnone
          refine ⟨k2, ?_, hk2⟩
          unfold mkQuery at herr2 ⊢
          cases hbt : buildTriples t rest with
          | error e =>
            rw [hbt] at herr2
            simp only at herr2
            cases herr2
            rw [hcons1, hev, hbt]
          | ok tl =>
            rw [hbt] at herr2
            exact absurd herr2 (by simp)
        · intro hall
          have hall2 : ∀ key fv2, (key, fv2) ∈ rest →
              (t.fields.find? (fun p => p.1 == key)).isSome = true :=
            fun key fv2 hm => hall key fv2 (List.mem_cons_of_mem _ hm)
          obtain ⟨q2, hq2, hq2t⟩ := ih2 hall2
          unfold mkQuery at hq2
          cases hbt : buildTriples t rest with
          | error e => rw [hbt] at hq2; exact absurd hq2 (by simp)
          | ok tl =>
            refine ⟨⟨t, (enc.map (fun p => (p.1, (ensure_comparison fv).op, p.2))) ++ tl⟩,
              ?_, rfl⟩
            unfold mkQuery
            rw [hcons1, hev, hbt]

/-! ## C6: column naming -/

/-- C6 counterexample: a foreign-key field whose target primary key has
exactly one column expands to exactly one physical column, but that column
is named `parent_rowid`, not `parent` — the `{field}` single-column naming
rule does not extend to foreign keys. -/
theorem columns_for_fk_single_counterexample :
    columns_for "parent" (.fk (.mk "Parent" [("rowid", .prim .pint)])) = ["parent_rowid"] ∧
    (columns_for "parent" (.fk (.mk "Parent" [("rowid", .prim .pint)]))).length = 1 ∧
    columns_for "parent" (.fk (.mk "Parent" [("rowid", .prim .pint)])) ≠ ["parent"] := by
  refine ⟨rfl, rfl, ?_⟩
  decide

/-- C6 amended: the expansion is deterministic and order-preserving and the
naming rule is per registration kind — `{field}` for scalar registrations,
`{field}_{constituent}` for mapping registrations (even with one
constituent), and `{field}_{pkfield}` for foreign keys even when the target
primary key has exactly one column; encoding a representable value produces
exactly these columns in this order. -/
theorem columns_for_naming (f : String) :
    (∀ p : PrimType, columns_for f (.prim p) = [f]) ∧
    (∀ shape : List (String × BaseKind),
      columns_for f (.comp shape) = shape.map (fun kv => f ++ "_" ++ kv.1)) ∧
    (∀ (name : String) (pkFields : List (String × PyType)),
      columns_for f (.fk (.mk name pkFields)) = pkFields.map (fun pk => f ++ "_" ++ pk.1)) ∧
    (∀ (ty : PyType) (v : PyValue), ty.registeredB = true → representable v ty = true →
      ∃ enc, to_stored f ty v = some enc ∧ enc.map Prod.fst = columns_for f ty) := by
  refine ⟨fun p => rfl, fun shape => rfl, fun name pkFields => rfl, ?_⟩
  intro ty v hreg hv
  obtain ⟨enc, h1, h2, h3, h4⟩ := to_stored_from_stored hreg hv
  exact ⟨enc, h1, h2⟩

theorem columns_for_naming_witness :
    columns_for "c" (.prim .pint) = ["c"] ∧
    (∃ enc, to_stored "c" (.prim .pint) (.vint 5) = some enc ∧
      enc.map Prod.fst = columns_for "c" (.prim .pint)) := by
  refine ⟨(columns_for_naming "c").1 .pint, ?_⟩
  exact (columns_for_naming "c").2.2.2 (.prim .pint) (.vint 5) rfl
    (by simp [representable, typedVal])

/-! ## C8: unpersisted delete / commit -/

/-- C8 counterexample: committing an instance with no assigned primary key
does not raise — `BaseTable.commit` performs no check, and the update
statement matches no rows, leaving the state unchanged — while
`Table.delete` on the same instance does raise the `NotPersistedError`
kind (`ValueError('Cannot delete instance not in database')`). -/
theorem commit_unpersisted_counterexample :
    instanceCommit pointSchema pointState 0 = some pointState ∧
    tableDelete pointSchema pointState 0 = .error .notPersisted := by
  constructor
  · simp [instanceCommit, pointSchema, pointState, DBState.obj, lookupA, encode_row,
      encodeRowGo, to_stored, encodePrim, columns_for, execUpdate, pkColumns, dataColumns,
      tableColumns, DBState.rowsOf, setA, evalCmp]
  · rfl

/-- C8 amended: `delete()` on an instance whose `rowid` field is `None`
raises the `NotPersistedError` kind, for every table and state; `commit()`
performs no such check — on the example it succeeds outright, silently
executing an update that matches no rows. -/
theorem unpersisted_delete_raises (t : TableSchema) (s : DBState) (i : Nat) (obj : Obj)
    (hobj : s.obj i = some obj) (hrowid : lookupA obj "rowid" = some .none) :
    tableDelete t s i = .error .notPersisted ∧
    instanceCommit pointSchema pointState 0 = some pointState := by
  constructor
  · unfold tableDelete
    simp only [hobj, hrowid]
  · simp [instanceCommit, pointSchema, pointState, DBState.obj, lookupA, encode_row,
      encodeRowGo, to_stored, encodePrim, columns_for, execUpdate, pkColumns, dataColumns,
      tableColumns, DBState.rowsOf, setA, evalCmp]

theorem unpersisted_delete_raises_witness :
    tableDelete pointSchema pointState 0 = .error .notPersisted :=
  (unpersisted_delete_raises pointSchema pointState 0
    [("rowid", PyValue.none), ("x", .vint 1), ("y", .vint 2)] rfl rfl).1

/-! ## C9: the generated insert statement -/

/-- C9 counterexample: the insert statement for a rowid table always lists
the primary-key column — for a fresh `Point` the statement still names
`rowid` and `_encode_row` binds it to storage null; nothing is ever
excluded from the column list. -/
theorem insert_lists_pk_counterexample :
    sqlInsert pointSchema = "insert into Point (rowid, x, y) values(:rowid, :x, :y)" ∧
    (tableColumns pointSchema).contains "rowid" = true ∧
    encode_row pointSchema [("rowid", PyValue.none), ("x", .vint 1), ("y", .vint 2)] =
      some [("rowid", SQLValue.null), ("x", .int 1), ("y", .int 2)] := by
  refine ⟨by rfl, rfl, ?_⟩
  simp [encode_row, encodeRowGo, to_stored, columns_for, encodePrim, lookupA, pointSchema]

/-- C9 amended: the insert statement lists every expanded column of every
field, primary key included, unconditionally; when the single INTEGER
primary-key column is bound to null, the store assigns the next rowid to
that column of the inserted row and reports it as `lastrowid`. -/
theorem insert_statement_all_columns :
    (∀ (t : TableSchema) (f : String) (ty : PyType), (f, ty) ∈ t.fields →
      ∀ c ∈ columns_for f ty, c ∈ tableColumns t) ∧
    (∀ (s : DBState) (t : TableSchema) (params : List (String × SQLValue)) (c : String)
        (idx : Nat) (row0 : List SQLValue),
      rowidAliasCol t = some c →
      (tableColumns t).indexOf? c = some idx →
      paramsRow params (tableColumns t) = some row0 →
      row0.get? idx = some .null →
      execInsert s t params =
        some ({ s with tables := (setA s.tables t.name
            (s.rowsOf t.name ++ [row0.set idx (.int (nextRowid (s.rowsOf t.name) idx))])) },
          nextRowid (s.rowsOf t.name) idx)) := by
  constructor
  · intro t f ty hmem c hc
    unfold tableColumns
    exact List.mem_flatMap.mpr ⟨(f, ty), hmem, hc⟩
  · intro s t params c idx row0 halias hidx hparams hnull
    unfold execInsert
    simp only [hparams, halias, hidx, hnull]

theorem insert_statement_all_columns_witness :
    "rowid" ∈ tableColumns pointSchema ∧
    execInsert pointState pointSchema
        [("rowid", SQLValue.null), ("x", .int 1), ("y", .int 2)] =
      some ({ pointState with tables := (setA pointState.tables "Point"
          [[SQLValue.int 1, .int 1, .int 2]]) }, 1) := by
  constructor
  · exact insert_statement_all_columns.1 pointSchema "rowid" (.prim .pint)
      (by simp [pointSchema]) "rowid" (by simp [columns_for])
  · have h := insert_statement_all_columns.2 pointState pointSchema
      [("rowid", SQLValue.null), ("x", .int 1), ("y", .int 2)] "rowid" 0
      [SQLValue.null, .int 1, .int 2] rfl rfl rfl rfl
    simpa using h

theorem encodeFkFields_keys {f : String} {pkFields : List (String × PyType)}
    {ws : List PyValue}
    (hprim : pkFields.all (fun pkf =>
      match pkf.2 with
      | .prim _ => true
      | _ => false) = true)
    (hty : typedFkVals ws pkFields = true) :
    ∃ enc, encodeFkFields f pkFields ws = some enc ∧
      enc.map Prod.fst = pkFields.map (fun pk => f ++ "_" ++ pk.1) := by
  induction pkFields generalizing ws with
  | nil =>
    cases ws with
    | nil => exact ⟨[], by simp [encodeFkFields], rfl⟩
    | cons w wsr => simp [typedFkVals] at hty
  | cons pkf rest ih =>
    obtain ⟨pk, ty⟩ := pkf
    cases ws with
    | nil => simp [typedFkVals] at hty
    | cons w wsr =>
      simp only [typedFkVals, Bool.and_eq_true] at hty
      simp only [List.all_cons, Bool.and_eq_true] at hprim
      cases ty with
      | comp shape => exact absurd hprim.1 (by simp)
      | fk tgt => exact absurd hprim.1 (by simp)
      | prim p =>
        obtain ⟨enc1, h1, h2, h3⟩ := @to_stored_from_stored_prim (f ++ "_" ++ pk) _ _ hty.1
        obtain ⟨enc2, h4, h5⟩ := ih hprim.2 hty.2
        refine ⟨enc1 ++ enc2, ?_, ?_⟩
        · rw [encodeFkFields]
          simp only [h1, h4]
        · simp [h2, h5]

/-- Encoding a representable value at a well-formed type produces exactly
the `columns_for` columns, in order. -/
theorem to_stored_keys {f : String} {ty : PyType} {v : PyValue}
    (hwf : wfTypeB ty = true) (hv : representable v ty = true) :
    ∃ enc, to_stored f ty v = some enc ∧ enc.map Prod.fst = columns_for f ty := by
  by_cases hvn : v = .none
  · subst hvn
    refine ⟨(columns_for f ty).map (fun c => (c, SQLValue.null)), ?_, ?_⟩
    · simp [to_stored]
    · rw [List.map_map]
      exact List.map_id _
  · have hv2 := representable_ne_none hv hvn
    cases ty with
    | prim p =>
      obtain ⟨enc, h1, h2, h3⟩ := @to_stored_from_stored_prim f _ _ hv2
      exact ⟨enc, h1, by simpa [columns_for] using h2⟩
    | comp shape =>
      have hne : shape ≠ [] := by
        cases shape with
        | nil => simp [wfTypeB] at hwf
        | cons a l => simp
      obtain ⟨enc, h1, h2, h3⟩ := @to_stored_from_stored_comp f _ _ hne hv2
      exact ⟨enc, h1, h2⟩
    | fk tgt =>
      obtain ⟨nm, pkFields⟩ := tgt
      cases v with
      | vinst ws =>
        simp only [typedVal] at hv2
        simp only [wfTypeB, Bool.and_eq_true] at hwf
        obtain ⟨enc, h1, h2⟩ := encodeFkFields_keys hwf.2 hv2
        refine ⟨enc, ?_, ?_⟩
        · cases ws with
          | nil =>
            rw [to_stored]
            exact h1
          | cons w wsr =>
            rw [to_stored]
            exact h1
        · simpa [columns_for] using h2
      | none => exact absurd rfl hvn
      | vint i => simp [typedVal] at hv2
      | vstr a => simp [typedVal] at hv2
      | vfloat a => simp [typedVal] at hv2
      | vbytes a => simp [typedVal] at hv2
      | vbool a => simp [typedVal] at hv2
      | vdate a => simp [typedVal] at hv2
      | vtime a => simp [typedVal] at hv2
      | vdatetime a => simp [typedVal] at hv2
      | vpath a => simp [typedVal] at hv2
      | vcomp a => simp [typedVal] at hv2

/-- `_encode_row` of a well-formed, well-typed instance succeeds and its
parameter names are exactly the table's expanded columns, in order. -/
theorem encodeRowGo_keys {obj : Obj} {fields : List (String × PyType)}
    (hwf : fields.all (fun p => wfTypeB p.2) = true)
    (hty : fields.all (fun p =>
      match lookupA obj p.1 with
      | some v => representable v p.2
      | Option.none => false) = true) :
    ∃ params, encodeRowGo obj fields = some params ∧
      params.map Prod.fst = fields.flatMap (fun p => columns_for p.1 p.2) := by
  induction fields with
  | nil => exact ⟨[], rfl, rfl⟩
  | cons fld rest ih =>
    obtain ⟨f, ty⟩ := fld
    simp only [List.all_cons, Bool.and_eq_true] at hwf hty
    cases hlk : lookupA obj f with
    | none => rw [hlk] at hty; exact absurd hty.1 (by simp)
    | some v =>
      rw [hlk] at hty
      obtain ⟨enc, h1, h2⟩ := @to_stored_keys f _ _ hwf.1 hty.1
      obtain ⟨params2, h3, h4⟩ := ih hwf.2 hty.2
      refine ⟨enc ++ params2, ?_, ?_⟩
      · rw [encodeRowGo]
        simp only [hlk, h1, h3]
      · simp [h2, h4]

theorem paramsRow_skip {params : List (String × SQLValue)} {c : String} {v : SQLValue}
    {cs : List String} (h : ¬ c ∈ cs) :
    paramsRow ((c, v) :: params) cs = paramsRow params cs := by
  induction cs with
  | nil => rfl
  | cons c2 cs2 ih =>
    have hne : c ≠ c2 := fun hcon => h (hcon ▸ List.mem_cons_self _ _)
    have ih2 := ih (fun hm => h (List.mem_cons_of_mem _ hm))
    show (match lookupA ((c, v) :: params) c2, paramsRow ((c, v) :: params) cs2 with
      | some v2, some tl => some (v2 :: tl)
      | _, _ => Option.none) = paramsRow params (c2 :: cs2)
    rw [ih2, show lookupA ((c, v) :: params) c2 = lookupA params c2 from by simp [lookupA, hne]]
    rfl

/-- Binding a parameter dict against its own key list reproduces the
values, provided the keys are distinct. -/
theorem paramsRow_self {params : List (String × SQLValue)}
    (hnd : (params.map Prod.fst).Nodup) :
    paramsRow params (params.map Prod.fst) = some (params.map Prod.snd) := by
  induction params with
  | nil => rfl
  | cons p rest ih =>
    obtain ⟨c, v⟩ := p
    simp only [List.map_cons, List.nodup_cons] at hnd
    show (match lookupA ((c, v) :: rest) c, paramsRow ((c, v) :: rest) (rest.map Prod.fst) with
      | some v2, some tl => some (v2 :: tl)
      | _, _ => Option.none) = _
    rw [paramsRow_skip hnd.1, ih hnd.2,
      show lookupA ((c, v) :: rest) c = some v from by simp [lookupA]]
    rfl

/-- Decoding the stored form of `_encode_row` slices it back into the same
per-field segments: the accumulated key tuple is `primary_key_columns` of
the encoded instance and the row is consumed exactly. -/
theorem decodeRowGo_pk_on_encoded {s : DBState} {pkNames : List String}
    {fields : List (String × PyType)} {obj : Obj} {params : List (String × SQLValue)}
    {v : Obj} {pk leftover : List SQLValue}
    (henc : encodeRowGo obj fields = some params)
    (hwf : fields.all (fun p => wfTypeB p.2) = true)
    (hty : fields.all (fun p =>
      match lookupA obj p.1 with
      | some w => representable w p.2
      | Option.none => false) = true)
    (hdec : decodeRowGo s pkNames fields (params.map Prod.snd) = some (v, pk, leftover)) :
    primaryKeyColumnsGo pkNames obj fields = some pk ∧ leftover = [] := by
  induction fields generalizing params v pk leftover with
  | nil =>
    rw [encodeRowGo] at henc
    cases henc
    rw [decodeRowGo] at hdec
    cases hdec
    exact ⟨rfl, rfl⟩
  | cons fld rest ih =>
    obtain ⟨f, ty⟩ := fld
    simp only [List.all_cons, Bool.and_eq_true] at hwf hty
    rw [encodeRowGo] at henc
    cases hlk : lookupA obj f with
    | none => rw [hlk] at hty; exact absurd hty.1 (by simp)
    | some w =>
      simp only [hlk] at hty henc
      cases hts : to_stored f ty w with
      | none => rw [hts] at henc; exact absurd henc (by simp)
      | some enc1 =>
        cases hrest : encodeRowGo obj rest with
        | none => rw [hts, hrest] at henc; exact absurd henc (by simp)
        | some params2 =>
          rw [hts, hrest] at henc
          simp only [Option.some.injEq] at henc
          subst henc
          obtain ⟨enc2, hts2, hkeys⟩ := to_stored_keys hwf.1 hty.1
          rw [hts] at hts2
          cases hts2
          have hlen : enc1.length = (columns_for f ty).length := by
            rw [← hkeys]
            simp
          rw [decodeRowGo] at hdec
          have htake : (List.map Prod.snd (enc1 ++ params2)).take
              (columns_for f ty).length = List.map Prod.snd enc1 := by
            rw [List.map_append, ← hlen]
            rw [show enc1.length = (List.map Prod.snd enc1).length from by simp]
            exact List.take_left _ _
          have hdrop : (List.map Prod.snd (enc1 ++ params2)).drop
              (columns_for f ty).length = List.map Prod.snd params2 := by
            rw [List.map_append, ← hlen]
            rw [show enc1.length = (List.map Prod.snd enc1).length from by simp]
            exact List.drop_left _ _
          rw [htake, hdrop] at hdec
          cases hdf : decodeFieldS s (List.map Prod.snd enc1) ty with
          | none => rw [hdf] at hdec; exact absurd hdec (by simp)
          | some w2 =>
            cases hrec : decodeRowGo s pkNames rest (List.map Prod.snd params2) with
            | none => rw [hdf, hrec] at hdec; exact absurd hdec (by simp)
            | some tri =>
              obtain ⟨v2, pk2, lo2⟩ := tri
              rw [hdf, hrec] at hdec
              simp only [Option.some.injEq, Prod.mk.injEq] at hdec
              obtain ⟨hpk2, hlo2⟩ := ih hrest hwf.2 hty.2 hrec
              constructor
              · by_cases hin : pkNames.contains f = true
                · rw [if_pos hin] at hdec
                  rw [primaryKeyColumnsGo, if_pos hin]
                  simp only [hlk, hts, hpk2]
                  rw [hdec.2.1]
                · rw [if_neg hin] at hdec
                  rw [primaryKeyColumnsGo, if_neg hin]
                  rw [hpk2, hdec.2.1]
              · rw [← hdec.2.2, hlo2]

/-! ## Insert registers the instance in the identity map -/

theorem idMapOf_setIdMaps_self (s : DBState) (n : String)
    (m : List (List SQLValue × Nat)) :
    ({ s with idMaps := setA s.idMaps n m } : DBState).idMapOf n = m := by
  unfold DBState.idMapOf
  simp [lookupA_setA_self]

theorem add_object_registers {t : TableSchema} {s s' : DBState} {i : Nat}
    (h : add_object t s i = some s') :
    ∃ obj pk, s'.obj i = some obj ∧ primary_key_columns t obj = some pk ∧
      lookupA (s'.idMapOf t.name) pk = some i ∧ s'.heap = s.heap ∧ s'.tables = s.tables := by
  unfold add_object at h
  cases hobj : s.obj i with
  | none => rw [hobj] at h; exact absurd h (by simp)
  | some obj =>
    simp only [hobj] at h
    cases hpk : primary_key_columns t obj with
    | none => rw [hpk] at h; exact absurd h (by simp)
    | some pk =>
      simp only [hpk, Option.some.injEq] at h
      subst h
      refine ⟨obj, pk, hobj, hpk, ?_, rfl, rfl⟩
      rw [idMapOf_setIdMaps_self, lookupA_setA_self]

/-- A successful `insert()` ends by registering the instance in the
identity map under its (possibly freshly assigned) primary-key tuple. -/
theorem instanceInsert_registers {t : TableSchema} {s s' : DBState} {i : Nat}
    (h : instanceInsert t s i = some s') :
    ∃ obj2 pkStar, s'.obj i = some obj2 ∧ primary_key_columns t obj2 = some pkStar ∧
      lookupA (s'.idMapOf t.name) pkStar = some i := by
  unfold instanceInsert at h
  cases hobj : s.obj i with
  | none => rw [hobj] at h; exact absurd h (by simp)
  | some obj =>
    simp only [hobj] at h
    cases hpar : encode_row t obj with
    | none => rw [hpar] at h; exact absurd h (by simp)
    | some params =>
      simp only [hpar] at h
      cases hexec : execInsert s t params with
      | none => rw [hexec] at h; exact absurd h (by simp)
      | some p =>
        obtain ⟨s1, lr⟩ := p
        simp only [hexec] at h
        by_cases hrw : t.primaryKey.contains "rowid" = true
        · rw [if_pos hrw] at h
          cases ho : s1.obj i with
          | none => rw [ho] at h; exact absurd h (by simp)
          | some o =>
            simp only [ho] at h
            obtain ⟨obj2, pk, h1, h2, h3, _, _⟩ := add_object_registers h
            exact ⟨obj2, pk, h1, h2, h3⟩
        · rw [if_neg hrw] at h
          obtain ⟨obj2, pk, h1, h2, h3, _, _⟩ := add_object_registers h
          exact ⟨obj2, pk, h1, h2, h3⟩

/-! ## C1 and C10 -/

/-- C1: at most one live instance per primary-key tuple.  (1) Decoding the
same stored row twice yields the same instance reference, the second
decode changing nothing.  (2) A successful `insert()` registers the
instance in the identity map under its primary-key tuple, so decoding any
row carrying that tuple — in particular the row the insert just stored —
returns the inserted instance itself. -/
theorem identity_map_single_instance (attach : String → DBState → Nat → DBState)
    (t : TableSchema) :
    (∀ (s s1 s2 : DBState) (row : List SQLValue) (i1 i2 : Nat),
      decodeRow attach t s row = some (s1, i1) →
      decodeRow attach t s1 row = some (s2, i2) → i2 = i1 ∧ s2 = s1) ∧
    (∀ (s s' : DBState) (i : Nat), instanceInsert t s i = some s' →
      ∃ obj2 pkStar, s'.obj i = some obj2 ∧ primary_key_columns t obj2 = some pkStar ∧
        lookupA (s'.idMapOf t.name) pkStar = some i ∧
        (∀ (row : List SQLValue) (values : Obj),
          decodeRowGo s' t.primaryKey t.fields row = some (values, pkStar, []) →
          decodeRow attach t s' row = some (s', i))) := by
  constructor
  · intro s s1 s2 row i1 i2 h1 h2
    exact decodeRow_twice h1 h2
  · intro s s' i h
    obtain ⟨obj2, pkStar, h1, h2, h3⟩ := instanceInsert_registers h
    refine ⟨obj2, pkStar, h1, h2, h3, ?_⟩
    intro row values hgo
    have hc := @decodeRow_cached attach _ _ _ _ _ _ _ hgo h3
    simpa using hc

theorem identity_map_single_instance_witness :
    (0 = 0 ∧ insertedPointState = insertedPointState) ∧
    (∃ obj2 pkStar, insertedPointState.obj 0 = some obj2 ∧
      primary_key_columns pointSchema obj2 = some pkStar ∧
      lookupA (insertedPointState.idMapOf "Point") pkStar = some 0 ∧
      (∀ (row : List SQLValue) (values : Obj),
        decodeRowGo insertedPointState pointSchema.primaryKey pointSchema.fields row =
          some (values, pkStar, []) →
        decodeRow (fun _ st _ => st) pointSchema insertedPointState row =
          some (insertedPointState, 0))) := by
  constructor
  · exact (identity_map_single_instance (fun _ st _ => st) pointSchema).1
      insertedPointState insertedPointState insertedPointState
      [.int 1, .int 1, .int 2] 0 0 rfl rfl
  · exact (identity_map_single_instance (fun _ st _ => st) pointSchema).2
      pointState insertedPointState 0
      (by simp [instanceInsert, pointState, pointSchema, DBState.obj, lookupA, encode_row,
        encodeRowGo, to_stored, encodePrim, columns_for, execInsert, paramsRow,
        tableColumns, rowidAliasCol, nextRowid, DBState.rowsOf, setA, removeA,
        add_object, primary_key_columns, primaryKeyColumnsGo, insertedPointState,
        DBState.idMapOf, show List.indexOf? "rowid" ["rowid", "x", "y"] = some 0 from rfl,
        List.set])

/-- C10: when the identity map already holds an instance for the row's
primary-key tuple, `decode_row` returns that cached instance and discards
the freshly decoded values entirely — the returned state is the input
state, so no field of the cached instance (nor anything else) changes. -/
theorem requery_keeps_cached_instance (attach : String → DBState → Nat → DBState)
    (t : TableSchema) (s : DBState) (row : List SQLValue) (values : Obj)
    (pk : List SQLValue) (i : Nat)
    (hgo : decodeRowGo s t.primaryKey t.fields row = some (values, pk, []))
    (hhit : lookupA (s.idMapOf t.name) pk = some i) :
    decodeRow attach t s row = some (s, i) := by
  have hc := @decodeRow_cached attach _ _ _ _ _ _ _ hgo hhit
  simpa using hc

theorem requery_keeps_cached_instance_witness :
    decodeRow (fun _ st _ => st) pointSchema insertedPointState
      [.int 1, .int 1, .int 2] = some (insertedPointState, 0) :=
  requery_keeps_cached_instance (fun _ st _ => st) pointSchema insertedPointState
    [.int 1, .int 1, .int 2]
    [("rowid", PyValue.vint 1), ("x", .vint 1), ("y", .vint 2)] [SQLValue.int 1] 0 rfl rfl

theorem evalCmp_eq_refers (v : SQLValue) (hv : v ≠ SQLValue.null) (c : Option SQLValue) :
    (match c with
     | some cell => evalCmp "=" cell v
     | Option.none => false) = decide (c = some v) := by
  cases c with
  | none => simp
  | some cell =>
    show evalCmp "=" cell v = decide (some cell = some v)
    cases v <;> cases cell <;> simp_all [evalCmp]

/-- C7: relation resolution and the rows a resolved relation yields.
With no explicit field, a target with zero owner-typed fields raises the
`NoMatchingFieldError` kind, exactly one resolves to that field, and two
or more raise the `AmbiguousRelationError` kind (each naming the target
table, the owner and the relation); an explicitly named field of the wrong
declared type raises the `WrongRelationTypeError` kind.  The resolved
relation builds `Query(target, {field: instance})`, whose compiled triples
equate the encoded key columns, and executing it returns all and only the
rows whose stored foreign-key columns equal the owner's encoded key. -/
theorem relation_resolution (owner : TableSchema) (relName : String) :
    (∀ (target tname : String) (entries : List (String × NsVal)) (tt : TableSchema),
      targetPath target = [tname] →
      lookupA entries tname = some (.table tt) →
      ((tt.fields.filter (fun p => tyIsOwner p.2 owner) = [] →
        findTarget owner relName target (.mod entries) =
          .error (.noMatchingField tt.name owner.name relName)) ∧
       (∀ p, tt.fields.filter (fun p2 => tyIsOwner p2.2 owner) = [p] →
        findTarget owner relName target (.mod entries) = .ok (tt, p.1)) ∧
       (∀ p1 p2 ps, tt.fields.filter (fun p3 => tyIsOwner p3.2 owner) = p1 :: p2 :: ps →
        findTarget owner relName target (.mod entries) =
          .error (.ambiguousRelation tt.name owner.name relName
            ((p1 :: p2 :: ps).map (fun p3 => p3.1)))))) ∧
    (∀ (target tname attr : String) (entries : List (String × NsVal)) (tt : TableSchema)
        (ty : PyType),
      targetPath target = [tname, attr] →
      lookupA entries tname = some (.table tt) →
      lookupA tt.fields attr = some ty →
      tyIsOwner ty owner = false →
      findTarget owner relName target (.mod entries) =
        .error (.wrongRelationType target owner.name relName)) ∧
    (∀ (tt : TableSchema) (attr : String) (fld : String × PyType) (instVal : PyValue)
        (enc : List (String × SQLValue)),
      tt.fields.find? (fun p => p.1 == attr) = some fld →
      to_stored attr fld.2 instVal = some enc →
      mkQuery tt [(attr, .raw instVal)] = .ok ⟨tt, enc.map (fun p => (p.1, "=", p.2))⟩) ∧
    (∀ (tt : TableSchema) (triples : List (String × String × SQLValue)) (s : DBState),
      (∀ tr ∈ triples, tr.2.1 = "=" ∧ tr.2.2 ≠ SQLValue.null) →
      execSelectRows s ⟨tt, triples⟩ Option.none =
        (s.rowsOf tt.name).filter (refersTo tt triples)) := by
  refine ⟨?_, ?_, ?_, ?_⟩
  · intro target tname entries tt hpath hlk
    have hbase : findTarget owner relName target (.mod entries) =
        (match tt.fields.filter (fun p => tyIsOwner p.2 owner) with
        | [] => Except.error (.noMatchingField tt.name owner.name relName)
        | [p] => Except.ok (tt, p.1)
        | ps => Except.error (.ambiguousRelation tt.name owner.name relName
            (ps.map (fun p3 => p3.1)))) := by
      unfold findTarget
      rw [hpath]
      simp only [List.dropLast_single, List.getLast?_singleton, walkPath, nsGet, hlk]
    refine ⟨?_, ?_, ?_⟩
    · intro h0
      rw [hbase, h0]
    · intro p h1
      rw [hbase, h1]
    · intro p1 p2 ps h2
      rw [hbase, h2]
  · intro target tname attr entries tt ty hpath hlk hfld hwrong
    unfold findTarget
    rw [hpath]
    have hlast : ∀ h, [tname, attr].getLast h = attr := fun _ => rfl
    simp only [List.dropLast, List.getLast?, walkPath, nsGet, hlk, hlast, hfld]
    rw [hwrong]
    simp
  · intro tt attr fld instVal enc hfind hts
    unfold mkQuery buildTriples encode_query_value
    simp only [show ensure_comparison (.raw instVal) = ⟨"=", instVal⟩ from rfl, hfind, hts]
    have hnil : buildTriples tt [] = Except.ok ([] : List (String × String × SQLValue)) := by
      unfold buildTriples
      rfl
    simp only [hnil, List.append_nil]
  · intro tt triples s hops
    show ((s.rowsOf tt.name).filter (rowMatches tt triples)) =
      (s.rowsOf tt.name).filter (refersTo tt triples)
    apply List.filter_congr
    intro r _
    unfold rowMatches refersTo
    induction triples with
    | nil => rfl
    | cons tr rest ih =>
      have hop := hops tr (List.mem_cons_self _ _)
      have ih2 := ih (fun tr2 hm => hops tr2 (List.mem_cons_of_mem _ hm))
      simp only [List.all_cons]
      rw [ih2]
      congr 1
      cases hidx : (tableColumns tt).indexOf? tr.1 with
      | none => rfl
      | some idx =>
        rw [hop.1]
        exact evalCmp_eq_refers tr.2.2 hop.2 (r.get? idx)

theorem relation_resolution_witness :
    findTarget pointSchema "children" "Child" (.mod [("Child",
      .table ⟨"Child", [("rowid", .prim .pint),
        ("parent", .fk (.mk "Point" [("rowid", .prim .pint)]))], ["rowid"], []⟩)]) =
      .ok (⟨"Child", [("rowid", .prim .pint),
        ("parent", .fk (.mk "Point" [("rowid", .prim .pint)]))], ["rowid"], []⟩, "parent") ∧
    execSelectRows insertedPointState
        ⟨pointSchema, [("x", "=", SQLValue.int 1)]⟩ Option.none =
      (insertedPointState.rowsOf "Point").filter
        (refersTo pointSchema [("x", "=", SQLValue.int 1)]) := by
  constructor
  · exact ((relation_resolution pointSchema "children").1 "Child" "Child"
      [("Child", .table ⟨"Child", [("rowid", .prim .pint),
        ("parent", .fk (.mk "Point" [("rowid", .prim .pint)]))], ["rowid"], []⟩)]
      ⟨"Child", [("rowid", .prim .pint),
        ("parent", .fk (.mk "Point" [("rowid", .prim .pint)]))], ["rowid"], []⟩
      rfl rfl).2.1 ("parent", .fk (.mk "Point" [("rowid", .prim .pint)])) rfl
  · exact (relation_resolution pointSchema "children").2.2.2 pointSchema
      [("x", "=", SQLValue.int 1)] insertedPointState
      (by intro tr hm; simp at hm; rw [hm]; exact ⟨rfl, by simp⟩)

/-! ## C2: the registered-type storage contract -/

/-- C2: for every registered field type (the nine built-in primitives and
composite `register_type`/`register_dataclass` shapes), a field whose
declared type expands to the columns `columns_for` lists stores a
representable value as exactly one SQL value per column via `to_stored`,
`from_stored` on that stored tuple returns the original value, and `None`
is stored as a null in every column of the expansion. -/
theorem registry_roundtrip {f : String} {ty : PyType} {v : PyValue}
    (hreg : ty.registeredB = true) (hv : representable v ty = true) :
    ∃ enc, to_stored f ty v = some enc ∧
      enc.map Prod.fst = columns_for f ty ∧
      from_stored (enc.map Prod.snd) ty = some v ∧
      (v = .none → enc = (columns_for f ty).map (fun c => (c, SQLValue.null))) :=
  to_stored_from_stored hreg hv

theorem registry_roundtrip_witness :
    (PyType.prim .pdate).registeredB = true ∧
    representable (.vdate ⟨2021, 3, 14⟩) (.prim .pdate) = true ∧
    (∃ enc, to_stored "when" (.prim .pdate) (.vdate ⟨2021, 3, 14⟩) = some enc ∧
      enc.map Prod.fst = columns_for "when" (.prim .pdate) ∧
      from_stored (enc.map Prod.snd) (.prim .pdate) = some (.vdate ⟨2021, 3, 14⟩) ∧
      (PyValue.vdate ⟨2021, 3, 14⟩ = PyValue.none →
        enc = (columns_for "when" (.prim .pdate)).map (fun c => (c, SQLValue.null)))) := by
  have hv2 : representable (.vdate ⟨2021, 3, 14⟩) (.prim .pdate) = true := by
    simp only [representable, typedVal]
    decide
  exact ⟨rfl, hv2, registry_roundtrip rfl hv2⟩

theorem queryOne_trichotomy_witness :
    selectDecode (fun _ s _ => s) pointSchema insertedPointState
        (execSelectRows insertedPointState ⟨pointSchema, [("x", "=", SQLValue.int 1)]⟩
          (some 2)) = some (insertedPointState, [0]) ∧
    queryLen ⟨pointSchema, [("x", "=", SQLValue.int 1)]⟩ insertedPointState = 1 ∧
    (∃ i, ([0] : List Nat) = [i] ∧
      queryOne (fun _ s _ => s) ⟨pointSchema, [("x", "=", SQLValue.int 1)]⟩
        insertedPointState = .ok (insertedPointState, i)) :=
  ⟨rfl, rfl,
    (@queryOne_trichotomy (fun _ s _ => s) ⟨pointSchema, [("x", "=", SQLValue.int 1)]⟩
      insertedPointState insertedPointState [0] rfl).2.1 rfl⟩

theorem mkQuery_eager_unknown_field_witness :
    pointSchema.fields.find? (fun p => p.1 == "bogus") = Option.none ∧
    (∃ k2, mkQuery pointSchema [("bogus", FilterVal.raw (.vint 1))] =
        .error (.unknownField pointSchema.name k2) ∧
      pointSchema.fields.find? (fun p => p.1 == k2) = Option.none) :=
  ⟨rfl, (mkQuery_eager_unknown_field pointSchema [("bogus", FilterVal.raw (.vint 1))]
      (by
        intro key fv fld hmem hfind
        simp at hmem
        rw [hmem.1] at hfind
        exact Option.noConfusion hfind)).1
    "bogus" (FilterVal.raw (.vint 1)) (List.mem_cons_self _ _) rfl⟩

end Wurm
